import Mathlib

/-!
Verification of the procedural layout engine (ai-battlemaps): a shallow
embedding in Lean 4 of the room-separation physics, graph/door placement,
corridor rasterization, wave-function-collapse tiler, layout manager and
room-island extraction, together with theorems checking the documented
behaviour of each component against the code.

Conventions used throughout:
  * Python floats are modelled as rationals (or reals where a square root
    is required); Python int() truncation is pyInt, Python floor division
    is Int.fdiv.
  * numpy grids are modelled as total functions from integer coordinates
    to tile codes, with every write bounds-checked exactly as the code
    checks it.
  * Randomness is modelled by explicit oracle streams passed into the
    functions that consume them, mirroring the calls to the random module.
-/

namespace Layout

/-- Python int() conversion of a float: truncation toward zero. -/
def pyInt (q : ℚ) : ℤ := if 0 ≤ q then ⌊q⌋ else ⌈q⌉

/-- Python range(a, b) over integers. -/
def intRange (a b : ℤ) : List ℤ := (List.range (b - a).toNat).map (fun k => a + (k : ℤ))

/-- A grid of tile codes, indexed grid y x like the numpy array grid[y, x]. -/
abbrev Grid := ℤ → ℤ → ℕ

/-- Write one cell of a grid. -/
def setCell (g : Grid) (y x : ℤ) (v : ℕ) : Grid :=
  fun y1 x1 => if y1 = y ∧ x1 = x then v else g y1 x1

/-- Direction tag of a corridor segment, from the string tags
horizontal / vertical / direct used in physics_generator. -/
inductive CorridorDirection where
  | horizontal
  | vertical
  | direct
deriving DecidableEq, Repr

/-- A corridor segment as built by create_corridor_between_rooms:
a start point, an end point and a direction tag. -/
structure Corridor where
  startX : ℚ
  startY : ℚ
  endX : ℚ
  endY : ℚ
  direction : CorridorDirection
deriving DecidableEq, Repr

/-- Guarded corridor write used by all three drawing routines: write tile 3
at (gy, gx) only when the cell is inside the W x H grid and currently 0. -/
def corridorWrite (W H : ℤ) (g : Grid) (gy gx : ℤ) : Grid :=
  if 0 ≤ gx ∧ gx < W ∧ 0 ≤ gy ∧ gy < H then
    if g gy gx = 0 then setCell g gy gx 3 else g
  else g

/-- Embedding of PhysicsLayoutGenerator draw_horizontal_corridor. -/
def drawHorizontalCorridor (W H corridorWidth : ℤ) (sx ex yq : ℚ) (g : Grid) : Grid :=
  let xStart := pyInt (min sx ex)
  let xEnd := pyInt (max sx ex)
  let yCenter := pyInt yq
  let halfWidth := corridorWidth.fdiv 2
  (intRange xStart (xEnd + 1)).foldl (fun g1 x =>
    (intRange (-halfWidth) (halfWidth + 1)).foldl (fun g2 dy =>
      corridorWrite W H g2 (yCenter + dy) x) g1) g

/-- Embedding of PhysicsLayoutGenerator draw_vertical_corridor. -/
def drawVerticalCorridor (W H corridorWidth : ℤ) (sy ey xq : ℚ) (g : Grid) : Grid :=
  let yStart := pyInt (min sy ey)
  let yEnd := pyInt (max sy ey)
  let xCenter := pyInt xq
  let halfWidth := corridorWidth.fdiv 2
  (intRange yStart (yEnd + 1)).foldl (fun g1 y =>
    (intRange (-halfWidth) (halfWidth + 1)).foldl (fun g2 dx =>
      corridorWrite W H g2 y (xCenter + dx)) g1) g

/-- Embedding of PhysicsLayoutGenerator draw_direct_corridor: a stepped
line from start to end, stamped with a square brush of the corridor width. -/
def drawDirectCorridor (W H corridorWidth : ℤ) (sx sy ex ey : ℚ) (g : Grid) : Grid :=
  let dxq : ℚ := |ex - sx|
  let dyq : ℚ := |ey - sy|
  let steps := max (pyInt dxq) (pyInt dyq)
  if steps = 0 then g
  else
    let xInc : ℚ := (ex - sx) / (steps : ℚ)
    let yInc : ℚ := (ey - sy) / (steps : ℚ)
    let halfWidth := corridorWidth.fdiv 2
    (intRange 0 (steps + 1)).foldl (fun g1 i =>
      let x := pyInt (sx + (i : ℚ) * xInc)
      let y := pyInt (sy + (i : ℚ) * yInc)
      (intRange (-halfWidth) (halfWidth + 1)).foldl (fun g2 dx =>
        (intRange (-halfWidth) (halfWidth + 1)).foldl (fun g3 dy =>
          corridorWrite W H g3 (y + dy) (x + dx)) g2) g1) g

/-- Embedding of PhysicsLayoutGenerator draw_corridors: rasterize every
corridor segment according to its direction tag. -/
def drawCorridors (W H corridorWidth : ℤ) (corridors : List Corridor) (g : Grid) : Grid :=
  corridors.foldl (fun g1 c =>
    match c.direction with
    | CorridorDirection.horizontal => drawHorizontalCorridor W H corridorWidth c.startX c.endX c.startY g1
    | CorridorDirection.vertical => drawVerticalCorridor W H corridorWidth c.startY c.endY c.startX g1
    | CorridorDirection.direct => drawDirectCorridor W H corridorWidth c.startX c.startY c.endX c.endY g1) g

/-- The frame relation for corridor carving: a cell either keeps its exact
old value, or it was void 0 and is now a corridor tile 3. -/
def CarveFrame (g gNew : Grid) : Prop :=
  ∀ y x : ℤ, gNew y x = g y x ∨ (g y x = 0 ∧ gNew y x = 3)

/-! ### Physics rooms (physics_generator.py) -/

/-- Embedding of the PhysicsRoom dataclass: float position, integer size,
main/hallway flags. Positions are rationals standing for the Python floats. -/
structure PhysicsRoom where
  id : ℕ
  x : ℚ
  y : ℚ
  width : ℤ
  height : ℤ
  isMain : Bool := false
  isHallway : Bool := false
deriving DecidableEq, Repr

instance : Inhabited PhysicsRoom := ⟨⟨0, 0, 0, 0, 0, false, false⟩⟩

/-- PhysicsRoom.center: (x + width / 2, y + height / 2), float division. -/
def PhysicsRoom.center (r : PhysicsRoom) : ℚ × ℚ :=
  (r.x + (r.width : ℚ) / 2, r.y + (r.height : ℚ) / 2)

/-- PhysicsRoom.overlaps: axis-aligned boxes with touching edges not
counting as overlap. -/
def PhysicsRoom.roomOverlaps (r1 r2 : PhysicsRoom) : Prop :=
  ¬(r1.x + (r1.width : ℚ) ≤ r2.x ∨ r2.x + (r2.width : ℚ) ≤ r1.x ∨
    r1.y + (r1.height : ℚ) ≤ r2.y ∨ r2.y + (r2.height : ℚ) ≤ r1.y)

instance (r1 r2 : PhysicsRoom) : Decidable (r1.roomOverlaps r2) := by
  unfold PhysicsRoom.roomOverlaps; infer_instance

/-- The Euclidean distance between the centers of two rooms, as computed by
math.sqrt(dx * dx + dy * dy) in separate_rooms before the 0.1 clamp. -/
noncomputable def centerDist (r1 r2 : PhysicsRoom) : ℝ :=
  let dx : ℝ := ((r1.center.1 : ℝ) - (r2.center.1 : ℝ))
  let dy : ℝ := ((r1.center.2 : ℝ) - (r2.center.2 : ℝ))
  Real.sqrt (dx * dx + dy * dy)

/-- The per-pair repulsive force contributed to room1 by an overlapping
room2 inside one iteration of separate_rooms (physics_generator lines
211-222): the center-difference vector divided by max(0.1, distance) and
scaled by separation_force. -/
noncomputable def sepForcePair (separationForce : ℝ) (r1 r2 : PhysicsRoom) : ℝ × ℝ :=
  let dx : ℝ := ((r1.center.1 : ℝ) - (r2.center.1 : ℝ))
  let dy : ℝ := ((r1.center.2 : ℝ) - (r2.center.2 : ℝ))
  let distance : ℝ := max (1 / 10) (Real.sqrt (dx * dx + dy * dy))
  ((dx / distance) * separationForce, (dy / distance) * separationForce)

/-- Magnitude of a force vector. -/
noncomputable def forceMag (f : ℝ × ℝ) : ℝ := Real.sqrt (f.1 * f.1 + f.2 * f.2)

/-- The per-room net forces accumulated by one iteration of
separate_rooms: for every ordered pair (i, j) with i distinct from j and
the rooms overlapping, the pair force is added into entry i. -/
noncomputable def computeIterForces (separationForce : ℝ) (rooms : List PhysicsRoom) : List (ℝ × ℝ) :=
  rooms.enum.map (fun p =>
    rooms.enum.foldl (fun acc q =>
      if p.1 ≠ q.1 ∧ p.2.roomOverlaps q.2 then
        (acc.1 + (sepForcePair separationForce p.2 q.2).1,
         acc.2 + (sepForcePair separationForce p.2 q.2).2)
      else acc) (0, 0))

/-! ### Main-room selection (physics_generator select_main_rooms) -/

/-- Area of a physics room, width * height as in the sort key. -/
def PhysicsRoom.area (r : PhysicsRoom) : ℤ := r.width * r.height

/-- Stable insertion used by the descending area sort: an element moves
ahead of the tail only while its area is strictly larger, exactly the
behaviour of the stable Python sorted(..., reverse=True). -/
def insertByAreaDesc (x : ℕ × PhysicsRoom) : List (ℕ × PhysicsRoom) → List (ℕ × PhysicsRoom)
  | [] => [x]
  | y :: ys => if y.2.area ≤ x.2.area then x :: y :: ys else y :: insertByAreaDesc x ys

/-- Stable sort of indexed rooms by area, descending. -/
def sortByAreaDesc (l : List (ℕ × PhysicsRoom)) : List (ℕ × PhysicsRoom) :=
  l.foldr insertByAreaDesc []

/-- Whether a room passes the size threshold of select_main_rooms: both
its width and its height must reach room_size_mean * main_room_threshold. -/
def passesThreshold (threshold : ℚ) (r : PhysicsRoom) : Prop :=
  threshold ≤ (r.width : ℚ) ∧ threshold ≤ (r.height : ℚ)

instance (threshold : ℚ) (r : PhysicsRoom) : Decidable (passesThreshold threshold r) := by
  unfold passesThreshold; infer_instance

/-- Embedding of PhysicsLayoutGenerator select_main_rooms. Returns the
updated room list together with the main_rooms list, modelling the in-place
is_main mutations positionally. -/
def selectMainRooms (roomSizeMean : ℤ) (mainRoomThreshold : ℚ) (minMainRooms : ℕ)
    (selectionRatio : ℚ) (rooms : List PhysicsRoom) : List PhysicsRoom × List PhysicsRoom :=
  let threshold : ℚ := (roomSizeMean : ℚ) * mainRoomThreshold
  let marked := rooms.map (fun r =>
    if passesThreshold threshold r then { r with isMain := true } else r)
  let mains := marked.filter (fun r => decide (passesThreshold threshold r))
  if mains.length < minMainRooms ∧ 0 < rooms.length then
    let sorted := sortByAreaDesc rooms.enum
    let numToSelect : ℕ := max minMainRooms (pyInt ((rooms.length : ℚ) * selectionRatio)).toNat
    let k := min numToSelect rooms.length
    let chosenIdx := (sorted.take k).map Prod.fst
    let cleared := rooms.enum.map (fun p => { p.2 with isMain := chosenIdx.contains p.1 })
    let mains2 := (sorted.take k).map (fun p => { p.2 with isMain := true })
    (cleared, mains2)
  else
    (marked, mains)

/-- Strip the is_main flag, used to compare selected rooms with the input. -/
def clearMain (r : PhysicsRoom) : PhysicsRoom := { r with isMain := false }

/-! ### Final grid rasterization (physics_generator create_final_grid) -/

/-- One cell write of the room fill loop in place_room_on_grid: on the
border of the room rectangle a wall 2 is written only onto void, in the
interior a floor 1 is written unconditionally. -/
def roomCellWrite (W H : ℤ) (placeWalls interiorFill : Bool) (yStart yEnd xStart xEnd : ℤ)
    (g : Grid) (y x : ℤ) : Grid :=
  if 0 ≤ x ∧ x < W ∧ 0 ≤ y ∧ y < H then
    if placeWalls = true ∧ (y = yStart ∨ y = yEnd - 1 ∨ x = xStart ∨ x = xEnd - 1) then
      (if g y x = 0 then setCell g y x 2 else g)
    else if interiorFill = true then setCell g y x 1 else g
  else g

/-- int(room.x + room.width // 2), the x of the center marker tile. -/
def roomCenterX (r : PhysicsRoom) : ℤ := pyInt (r.x + ((r.width.fdiv 2 : ℤ) : ℚ))

/-- int(room.y + room.height // 2), the y of the center marker tile. -/
def roomCenterY (r : PhysicsRoom) : ℤ := pyInt (r.y + ((r.height.fdiv 2 : ℤ) : ℚ))

/-- The main-room marker tiles offered to random.choice. -/
def roomTypes : List ℕ := [6, 7, 8, 9, 10, 11]

/-- Embedding of place_room_on_grid. The second state component counts the
random.choice draws consumed; a draw happens exactly when a main room has
its center inside the grid. -/
def placeRoomOnGrid (W H : ℤ) (placeWalls interiorFill : Bool) (room : PhysicsRoom)
    (isMainArg : Bool) (rng : ℕ → Fin 6) (st : Grid × ℕ) : Grid × ℕ :=
  let xStart := max 0 (pyInt room.x)
  let yStart := max 0 (pyInt room.y)
  let xEnd := min W (pyInt (room.x + (room.width : ℚ)))
  let yEnd := min H (pyInt (room.y + (room.height : ℚ)))
  let g1 := (intRange yStart yEnd).foldl (fun gy y =>
    (intRange xStart xEnd).foldl (fun gx x =>
      roomCellWrite W H placeWalls interiorFill yStart yEnd xStart xEnd gx y x) gy) st.1
  if 0 ≤ roomCenterX room ∧ roomCenterX room < W ∧
      0 ≤ roomCenterY room ∧ roomCenterY room < H then
    if isMainArg = true then
      (setCell g1 (roomCenterY room) (roomCenterX room)
        (roomTypes.getD ((rng st.2) : ℕ) 6), st.2 + 1)
    else (setCell g1 (roomCenterY room) (roomCenterX room) 3, st.2)
  else (g1, st.2)

/-- find_intersecting_rooms: room bounding box against the corridor
bounding box inflated by the intersection buffer. -/
def corridorIntersects (buffer : ℚ) (c : Corridor) (r : PhysicsRoom) : Prop :=
  r.x < max c.startX c.endX + buffer ∧
  min c.startX c.endX - buffer < r.x + (r.width : ℚ) ∧
  r.y < max c.startY c.endY + buffer ∧
  min c.startY c.endY - buffer < r.y + (r.height : ℚ)

instance (buffer : ℚ) (c : Corridor) (r : PhysicsRoom) :
    Decidable (corridorIntersects buffer c r) := by
  unfold corridorIntersects; infer_instance

/-- create_corridor_rooms: promote every non-main, non-hallway room whose
box meets a buffered corridor box to a hallway room. -/
def createCorridorRooms (buffer : ℚ) (corridors : List Corridor)
    (rooms : List PhysicsRoom) : List PhysicsRoom :=
  corridors.foldl (fun rs c =>
    rs.map (fun r =>
      if corridorIntersects buffer c r ∧ r.isMain = false ∧ r.isHallway = false then
        { r with isHallway := true }
      else r)) rooms

/-- Embedding of create_final_grid: clear the grid, place main rooms,
promote and place hallway rooms, then draw the corridors. -/
def createFinalGrid (W H : ℤ) (placeWalls interiorFill : Bool) (corridorWidth : ℤ)
    (buffer : ℚ) (rooms : List PhysicsRoom) (corridors : List Corridor)
    (rng : ℕ → Fin 6) : Grid × ℕ :=
  let g0 : Grid := fun _ _ => 0
  let st1 := rooms.foldl (fun st r =>
    if r.isMain = true then placeRoomOnGrid W H placeWalls interiorFill r true rng st else st)
    (g0, 0)
  let rooms2 := createCorridorRooms buffer corridors rooms
  let st2 := rooms2.foldl (fun st r =>
    if r.isHallway = true then placeRoomOnGrid W H placeWalls interiorFill r false rng st
    else st) st1
  (drawCorridors W H corridorWidth corridors st2.1, st2.2)

/-- The center-marker cells of the main rooms, the only cells whose value
depends on the random marker stream. -/
def mainCenters (rooms : List PhysicsRoom) : List (ℤ × ℤ) :=
  (rooms.filter (fun r => r.isMain)).map (fun r => (roomCenterY r, roomCenterX r))

/-- Two grids agreeing on every cell outside a set of positions (y, x). -/
def AgreeOff (S : List (ℤ × ℤ)) (g1 g2 : Grid) : Prop :=
  ∀ y x : ℤ, (y, x) ∉ S → g1 y x = g2 y x

/-! ### Adjacent rooms and door placement (adjacent_room_generator.py) -/

/-- The bounds-and-doors view of an AdjacentRoom: the door code only reads
the bounding box, the id, the is_main flag and the mutable door list. -/
structure AdjRoom where
  id : ℕ
  minX : ℚ
  maxX : ℚ
  minY : ℚ
  maxY : ℚ
  isMain : Bool := false
  doors : List (ℤ × ℤ) := []
deriving DecidableEq, Repr

instance : Inhabited AdjRoom := ⟨⟨0, 0, 0, 0, 0, false, []⟩⟩

/-- AdjacentRoom.is_adjacent at the default tolerance 1.5: bounding boxes
touch on one axis and their ranges overlap on the other axis. -/
def isAdjacent (r1 r2 : AdjRoom) : Prop :=
  ((|r1.maxX - r2.minX| ≤ 3 / 2 ∨ |r2.maxX - r1.minX| ≤ 3 / 2) ∧
     ¬(r1.maxY ≤ r2.minY ∨ r2.maxY ≤ r1.minY)) ∨
  ((|r1.maxY - r2.minY| ≤ 3 / 2 ∨ |r2.maxY - r1.minY| ≤ 3 / 2) ∧
     ¬(r1.maxX ≤ r2.minX ∨ r2.maxX ≤ r1.minX))

instance (r1 r2 : AdjRoom) : Decidable (isAdjacent r1 r2) := by
  unfold isAdjacent; infer_instance

/-- AdjacentRoom.get_shared_wall: the wall coordinate run between two
adjacent rooms; the vertical-adjacency block overwrites the horizontal
one, as in the source, and an empty run is reported as none. -/
def getSharedWall (r1 r2 : AdjRoom) : Option (List (ℤ × ℤ)) :=
  if ¬ isAdjacent r1 r2 then none
  else
    let w1 : List (ℤ × ℤ) :=
      if |r1.maxX - r2.minX| ≤ 1 / 10 then
        let wallX := pyInt r1.maxX
        let startY := max (pyInt r1.minY) (pyInt r2.minY)
        let endY := min (pyInt r1.maxY) (pyInt r2.maxY)
        (intRange startY endY).map (fun yy => (wallX, yy))
      else if |r2.maxX - r1.minX| ≤ 1 / 10 then
        let wallX := pyInt r2.maxX
        let startY := max (pyInt r1.minY) (pyInt r2.minY)
        let endY := min (pyInt r1.maxY) (pyInt r2.maxY)
        (intRange startY endY).map (fun yy => (wallX, yy))
      else []
    let w2 : List (ℤ × ℤ) :=
      if |r1.maxY - r2.minY| ≤ 1 / 10 then
        let wallY := pyInt r1.maxY
        let startX := max (pyInt r1.minX) (pyInt r2.minX)
        let endX := min (pyInt r1.maxX) (pyInt r2.maxX)
        (intRange startX endX).map (fun xx => (xx, wallY))
      else if |r2.maxY - r1.minY| ≤ 1 / 10 then
        let wallY := pyInt r2.maxY
        let startX := max (pyInt r1.minX) (pyInt r2.minX)
        let endX := min (pyInt r1.maxX) (pyInt r2.maxX)
        (intRange startX endX).map (fun xx => (xx, wallY))
      else w1
    if w2 = [] then none else some w2

/-- Parameters read by place_doors_between_adjacent_rooms. -/
structure DoorParams where
  doorProbability : ℚ
  minDoorLength : ℕ
  maxDoorLength : ℕ
deriving DecidableEq, Repr

/-- The door run cut from a shared wall: door_length is
min(max_door_length, max(min_door_length, len // 3)), the window starts at
max(0, len // 2 - door_length // 2) and ends at min(len, start +
door_length), and the placed run is the slice between those indices. -/
def doorWindow (minDoorLength maxDoorLength : ℕ) (wall : List (ℤ × ℤ)) : List (ℤ × ℤ) :=
  let doorLength := min maxDoorLength (max minDoorLength (wall.length / 3))
  let midPoint := wall.length / 2
  let startIdx : ℤ := max 0 ((midPoint : ℤ) - (doorLength : ℤ) / 2)
  let endIdx : ℤ := min (wall.length : ℤ) (startIdx + (doorLength : ℤ))
  (wall.drop startIdx.toNat).take (endIdx - startIdx).toNat

/-- The room-lookup loop of place_doors_between_adjacent_rooms: scan the
room list, remembering the last index whose id equals edge[0] (the elif
giving edge[1] matches only to rooms that did not match edge[0]). -/
def findEdgeRooms (rooms : List AdjRoom) (e : ℕ × ℕ) : Option ℕ × Option ℕ :=
  rooms.enum.foldl (fun acc p =>
    if p.2.id = e.1 then (some p.1, acc.2)
    else if p.2.id = e.2 then (acc.1, some p.1)
    else acc) (none, none)

/-- One edge of the door-placement loop: look both rooms up, consume one
uniform random draw when both are found, and on success append the door
window to the door lists of both rooms. The second state component counts
the random draws consumed. -/
def placeDoorsStep (p : DoorParams) (rng : ℕ → ℚ) (st : List AdjRoom × ℕ) (e : ℕ × ℕ) :
    List AdjRoom × ℕ :=
  let rooms := st.1
  match findEdgeRooms rooms e with
  | (some i1, some i2) =>
      if rng st.2 < p.doorProbability then
        let r1 := rooms.getD i1 default
        let r2 := rooms.getD i2 default
        match getSharedWall r1 r2 with
        | some wall =>
            if 0 < wall.length then
              let doorPositions := doorWindow p.minDoorLength p.maxDoorLength wall
              ((rooms.set i1 { r1 with doors := r1.doors ++ doorPositions }).set i2
                  { r2 with doors := r2.doors ++ doorPositions }, st.2 + 1)
            else (rooms, st.2 + 1)
        | none => (rooms, st.2 + 1)
      else (rooms, st.2 + 1)
  | _ => (rooms, st.2)

/-- Embedding of place_doors_between_adjacent_rooms over the edge list of
the adjacency graph. -/
def placeDoorsBetweenAdjacentRooms (p : DoorParams) (edges : List (ℕ × ℕ)) (rng : ℕ → ℚ)
    (rooms : List AdjRoom) : List AdjRoom :=
  (edges.foldl (placeDoorsStep p rng) (rooms, 0)).1

/-- Door symmetry for a room list: every recorded door coordinate also
appears in the door list of a partner room connected by a graph edge. -/
def DoorSym (edges : List (ℕ × ℕ)) (rooms : List AdjRoom) : Prop :=
  ∀ r ∈ rooms, ∀ d ∈ r.doors, ∃ r2 ∈ rooms, r2.id ≠ r.id ∧ d ∈ r2.doors ∧
    ∃ e ∈ edges, (e.1 = r.id ∧ e.2 = r2.id) ∨ (e.1 = r2.id ∧ e.2 = r.id)

/-! ### Wave-function-collapse tiler (image_scene_synthesis/wfc.py) -/

/-- A pattern: a pattern_size x pattern_size tile window flattened row-major,
as produced by tuple(pattern.flatten()). -/
def Pattern := List ℕ
deriving DecidableEq, Repr

instance : Inhabited Pattern := ⟨([] : List ℕ)⟩

/-- extract_patterns: every pattern_size-square window of the sample, in
row-major scan order, flattened. -/
def extractPatterns (ps : ℕ) (sample : List (List ℕ)) : List Pattern :=
  let h := sample.length
  let w := (sample.headD []).length
  (List.range (h + 1 - ps)).bind (fun i =>
    (List.range (w + 1 - ps)).map (fun j =>
      (List.range ps).bind (fun di =>
        (List.range ps).map (fun dj => (sample.getD (i + di) []).getD (j + dj) 0))))

/-- The trailing (rightmost) column of a flattened pattern:
entries pattern_size - 1 + k * pattern_size. -/
def trailingCol (ps : ℕ) (p : Pattern) : List ℕ :=
  (List.range ps).map (fun k => p.getD (ps - 1 + k * ps) 0)

/-- The leading (leftmost) column of a flattened pattern:
entries k * pattern_size. -/
def leadingCol (ps : ℕ) (p : Pattern) : List ℕ :=
  (List.range ps).map (fun k => p.getD (k * ps) 0)

/-- The trailing (bottom) row of a flattened pattern: the Python negative
indices -pattern_size + k, that is entries length - pattern_size + k. -/
def trailingRow (ps : ℕ) (p : Pattern) : List ℕ :=
  (List.range ps).map (fun k => p.getD (p.length - ps + k) 0)

/-- The leading (top) row of a flattened pattern: entries k. -/
def leadingRow (ps : ℕ) (p : Pattern) : List ℕ :=
  (List.range ps).map (fun k => p.getD k 0)

/-- The right-adjacency test of build_adjacency_rules: entrywise equality
of the trailing column of p1 with the leading column of p2. -/
def rightAdjOk (ps : ℕ) (p1 p2 : Pattern) : Prop :=
  ∀ k < ps, p1.getD (ps - 1 + k * ps) 0 = p2.getD (k * ps) 0

instance (ps : ℕ) (p1 p2 : Pattern) : Decidable (rightAdjOk ps p1 p2) := by
  unfold rightAdjOk; infer_instance

/-- The down-adjacency test of build_adjacency_rules: entrywise equality of
the trailing row of p1 with the leading row of p2. -/
def downAdjOk (ps : ℕ) (p1 p2 : Pattern) : Prop :=
  ∀ k < ps, p1.getD (p1.length - ps + k) 0 = p2.getD k 0

instance (ps : ℕ) (p1 p2 : Pattern) : Decidable (downAdjOk ps p1 p2) := by
  unfold downAdjOk; infer_instance

/-- rules[(p1, right)]: the set of patterns accepted by the
right-adjacency test against p1, kept as the filtered pattern list. -/
def adjacencyRight (ps : ℕ) (patterns : List Pattern) (p1 : Pattern) : List Pattern :=
  patterns.filter (fun p2 => decide (rightAdjOk ps p1 p2))

/-- rules[(p1, down)]: the set of patterns accepted by the down-adjacency
test against p1. -/
def adjacencyDown (ps : ℕ) (patterns : List Pattern) (p1 : Pattern) : List Pattern :=
  patterns.filter (fun p2 => decide (downAdjOk ps p1 p2))

/-- The four propagation directions of the WFC main loop, in the order of
the direction list of propagate. -/
inductive Dir where
  | right
  | down
  | left
  | up
deriving DecidableEq, Repr

/-- The adjacency-dictionary test of propagate: (p1, direction) must be a
key of the rules dictionary and p2 a member of its set. Only right and
down keys are ever created by build_adjacency_rules, so the left and up
lookups never succeed. -/
def dirAdjOk (ps : ℕ) (d : Dir) (p1 p2 : Pattern) : Prop :=
  match d with
  | .right => rightAdjOk ps p1 p2
  | .down => downAdjOk ps p1 p2
  | .left => False
  | .up => False

instance (ps : ℕ) (d : Dir) (p1 p2 : Pattern) : Decidable (dirAdjOk ps d p1 p2) := by
  unfold dirAdjOk
  match d with
  | .right => infer_instance
  | .down => infer_instance
  | .left => infer_instance
  | .up => infer_instance

/-- The mutable state of the WFC run: the collapsed pattern index per cell
(none for the numpy -1) and the candidate domain per cell. -/
structure WfcState where
  output : ℤ → ℤ → Option ℕ
  possible : ℤ → ℤ → Finset ℕ

/-- observe: scan cells in row-major order and keep the first uncollapsed
cell whose domain size is bigger than 1 and strictly smaller than the best
seen so far (min_choices starts at infinity). -/
def observe (H W : ℕ) (st : WfcState) : Option (ℤ × ℤ) :=
  let cells := (List.range H).bind (fun i => (List.range W).map (fun j => ((i : ℤ), (j : ℤ))))
  (cells.foldl (fun (acc : Option (ℕ × ℤ × ℤ)) c =>
    let cnt := (st.possible c.1 c.2).card
    match acc with
    | none => if st.output c.1 c.2 = none ∧ 1 < cnt then some (cnt, c) else acc
    | some m => if st.output c.1 c.2 = none ∧ 1 < cnt ∧ cnt < m.1 then some (cnt, c) else acc)
    none).map (fun p => p.2)

/-- The direction list of propagate with its integer offsets. -/
def propagateDirs : List (Dir × ℤ × ℤ) :=
  [(Dir.right, (0, 1)), (Dir.down, (1, 0)), (Dir.left, (0, -1)), (Dir.up, (-1, 0))]

/-- One popped cell of propagate: for each of the four directions narrow
the uncollapsed in-bounds neighbor to the patterns compatible with some
pattern still possible in the popped cell, updating and pushing the
neighbor only when the narrowed domain is nonempty and changed. -/
def propagateStep (uniq : List Pattern) (ps H W : ℕ) (c : ℤ × ℤ)
    (start : WfcState × List (ℤ × ℤ)) : WfcState × List (ℤ × ℤ) :=
  propagateDirs.foldl (fun acc d =>
    let ni := c.1 + d.2.1
    let nj := c.2 + d.2.2
    if 0 ≤ ni ∧ ni < (H : ℤ) ∧ 0 ≤ nj ∧ nj < (W : ℤ) ∧ acc.1.output ni nj = none then
      let before := acc.1.possible ni nj
      let newPossible := before.filter (fun p2 =>
        ∃ p1 ∈ acc.1.possible c.1 c.2, dirAdjOk ps d.1 (uniq.getD p1 ([] : Pattern)) (uniq.getD p2 ([] : Pattern)))
      if newPossible.Nonempty ∧ newPossible ≠ before then
        ({ acc.1 with possible := fun y x =>
            if y = ni ∧ x = nj then newPossible else acc.1.possible y x },
         (ni, nj) :: acc.2)
      else acc
    else acc) start

/-- The fuelled stack loop of propagate; the stack head is the Python list
end, so pushes go to the head. -/
def propagate (uniq : List Pattern) (ps H W : ℕ) :
    ℕ → List (ℤ × ℤ) → WfcState → WfcState
  | 0, _, st => st
  | _ + 1, [], st => st
  | fuel + 1, c :: stack, st =>
      let next := propagateStep uniq ps H W c (st, stack)
      propagate uniq ps H W fuel next.2 next.1

/-- The fuelled main WFC loop: observe, collapse the observed cell to a
pattern of its domain picked by the chooser oracle (standing for the
weighted random.choices draw), and propagate from it. Each iteration
collapses one cell, so fuel H * W + 1 runs the loop to completion. -/
def wfcLoop (uniq : List Pattern) (ps H W : ℕ) (chooser : ℕ → ℕ) :
    ℕ → ℕ → WfcState → WfcState
  | 0, _, st => st
  | fuel + 1, t, st =>
      match observe H W st with
      | none => st
      | some c =>
          let choices := (st.possible c.1 c.2).sort (· ≤ ·)
          let chosen := choices.getD (chooser t % choices.length) 0
          let st1 : WfcState :=
            { output := fun y x => if y = c.1 ∧ x = c.2 then some chosen else st.output y x,
              possible := fun y x => if y = c.1 ∧ x = c.2 then {chosen} else st.possible y x }
          wfcLoop uniq ps H W chooser fuel (t + 1)
            (propagate uniq ps H W (H * W * (uniq.length + 1) + 1) [c] st1)

/-- The result of a WFC run: the tile map together with the final state
and the unique pattern list. -/
structure WfcResult where
  tilemap : ℤ → ℤ → ℕ
  final : WfcState
  uniq : List Pattern

/-- first-occurrence deduplication, matching the insertion order of the
Counter dictionary keys. -/
def firstDedup (l : List Pattern) : List Pattern :=
  l.foldl (fun acc p => if p ∈ acc then acc else acc ++ [p]) []

/-- Embedding of WaveFunctionCollapse.run: extract patterns, build the
initial full domains, run the collapse loop, then map every collapsed cell
to the center tile of its pattern and every uncollapsed cell to the
fallback tile 0. -/
def wfcRun (ps H W : ℕ) (chooser : ℕ → ℕ) (sample : List (List ℕ)) : WfcResult :=
  let extracted := extractPatterns ps sample
  let uniq := firstDedup extracted
  let st0 : WfcState :=
    { output := fun _ _ => none, possible := fun _ _ => Finset.range uniq.length }
  let stF := wfcLoop uniq ps H W chooser (H * W + 1) 0 st0
  let center := ps / 2
  { tilemap := fun i j =>
      match stF.output i j with
      | some p => (uniq.getD p ([] : Pattern)).getD (center * ps + center) 0
      | none => 0,
    final := stF,
    uniq := uniq }

/-- All domains of a WFC state are nonempty. -/
def AllNonempty (st : WfcState) : Prop := ∀ i j : ℤ, (st.possible i j).Nonempty

/-! ### Layout manager (layout_manager.py) -/

/-- The LayoutMethod enum of layout_manager.py. -/
inductive LayoutMethod where
  | graphLinear
  | graphHub
  | graphBranching
  | graphLoop
  | physicsTinykep
  | enhancedPhysics
  | adjacentRooms
deriving DecidableEq, Repr

/-- The string value of each enum member. -/
def LayoutMethod.value : LayoutMethod → String
  | .graphLinear => "graph_linear"
  | .graphHub => "graph_hub"
  | .graphBranching => "graph_branching"
  | .graphLoop => "graph_loop"
  | .physicsTinykep => "physics_tinykep"
  | .enhancedPhysics => "enhanced_physics"
  | .adjacentRooms => "adjacent_rooms"

/-- All enum member values. -/
def layoutMethodValues : List String :=
  ["graph_linear", "graph_hub", "graph_branching", "graph_loop", "physics_tinykep",
   "enhanced_physics", "adjacent_rooms"]

/-- Enum lookup LayoutMethod(s): fails (the Python ValueError) between an
unknown generation-method name and the manager. -/
def layoutMethodFromString (s : String) : Option LayoutMethod :=
  if s = "graph_linear" then some .graphLinear
  else if s = "graph_hub" then some .graphHub
  else if s = "graph_branching" then some .graphBranching
  else if s = "graph_loop" then some .graphLoop
  else if s = "physics_tinykep" then some .physicsTinykep
  else if s = "enhanced_physics" then some .enhancedPhysics
  else if s = "adjacent_rooms" then some .adjacentRooms
  else none

/-- A Python attribute value on a parameter dataclass. -/
inductive PVal where
  | num (q : ℚ)
  | str (s : String)
  | bool (b : Bool)
deriving DecidableEq, Repr

/-- A Python object modelled as its attribute dictionary. -/
def PyObj := List (String × PVal)

/-- hasattr(params, key). -/
def pyHasattr (o : PyObj) (k : String) : Bool :=
  (List.any o (fun kv => kv.1 = k))

/-- setattr(params, key, value). -/
def pySetattr (o : PyObj) (k : String) (v : PVal) : PyObj :=
  (List.map (fun kv => if kv.1 = k then (kv.1, v) else kv) o)

/-- LayoutManager merge_params and the create_*_params kwargs loop: a key
is applied only when hasattr holds, otherwise it is silently skipped. -/
def mergeParams (params : PyObj) (kwargs : List (String × PVal)) : PyObj :=
  kwargs.foldl (fun ps kv => if pyHasattr ps kv.1 then pySetattr ps kv.1 kv.2 else ps) params

/-- The default attribute dictionary of PhysicsLayoutParams. -/
def physicsLayoutDefaults : PyObj :=
  [("num_rooms", PVal.num 50), ("spawn_radius", PVal.num 20), ("room_size_mean", PVal.num 8),
   ("room_size_std", PVal.num 3), ("room_size_min", PVal.num 3), ("room_size_max", PVal.num 20),
   ("main_room_threshold", PVal.num (5 / 4)), ("min_main_rooms", PVal.num 3),
   ("main_room_selection_ratio", PVal.num (3 / 10)), ("separation_force", PVal.num 1),
   ("max_physics_iterations", PVal.num 1000), ("convergence_threshold", PVal.num (1 / 10)),
   ("tile_size", PVal.num 1), ("grid_edge_margin", PVal.num 1),
   ("delaunay_triangulation", PVal.bool true), ("min_triangulation_rooms", PVal.num 3),
   ("edge_reconnect_percent", PVal.num (1 / 10)), ("min_connections", PVal.num 1),
   ("max_additional_connections", PVal.num 3), ("corridor_width", PVal.num 3),
   ("corridor_style", PVal.str "L_shaped"), ("corridor_intersection_buffer", PVal.num 1),
   ("place_walls", PVal.bool true), ("place_doors", PVal.bool true),
   ("room_interior_fill", PVal.bool true)]

/-- str.startswith over the character lists of the two strings. -/
def pyStartsWith (s p : String) : Bool := List.isPrefixOf p.toList s.toList

/-- The branch structure of LayoutManager.generate_layout: which methods
reach a generator and which raise a ValueError. -/
def generateLayoutDispatch (m : LayoutMethod) : Except String Unit :=
  if pyStartsWith m.value "graph_" then Except.ok ()
  else if pyStartsWith m.value "physics_" then
    (if m = LayoutMethod.physicsTinykep then Except.ok ()
     else Except.error "Unknown physics method")
  else if m = LayoutMethod.enhancedPhysics then Except.ok ()
  else if m = LayoutMethod.adjacentRooms then Except.ok ()
  else Except.error "Unknown method category"

/-! ### Room-island extraction (agent/dungeon_dataclasses.py) -/

/-- The 4-neighborhood used by the perimeter flood fill. -/
def dirs4 : List (ℤ × ℤ) := [(1, 0), (-1, 0), (0, 1), (0, -1)]

/-- The 8-neighborhood used to attach walls and doors to an interior,
in the comprehension order of the source. -/
def dirs8 : List (ℤ × ℤ) :=
  [(-1, -1), (-1, 0), (-1, 1), (0, -1), (0, 1), (1, -1), (1, 0), (1, 1)]

/-- The value of a cell of a row-list grid, 0 outside. -/
def cellNat (g : List (List ℕ)) (y x : ℕ) : ℕ := (g.getD y []).getD x 0

/-- Cell access at integer coordinates, 0 outside. -/
def cellAt (g : List (List ℕ)) (y x : ℤ) : ℕ :=
  if 0 ≤ y ∧ 0 ≤ x then cellNat g y.toNat x.toNat else 0

/-- wall_or_door: the cell holds tile 2 (wall) or 4 (door). -/
def isWallOrDoor (g : List (List ℕ)) (y x : ℤ) : Bool :=
  decide (cellAt g y x = 2 ∨ cellAt g y x = 4)

/-- try_enqueue of the flood fill: mark a cell outside and queue it when it
is in bounds, not a wall or door, and not already marked. -/
def tryEnqueue (H W : ℕ) (wd : ℤ → ℤ → Bool)
    (st : (ℤ → ℤ → Bool) × List (ℤ × ℤ)) (y x : ℤ) :
    (ℤ → ℤ → Bool) × List (ℤ × ℤ) :=
  if 0 ≤ y ∧ y < (H : ℤ) ∧ 0 ≤ x ∧ x < (W : ℤ) ∧ wd y x = false ∧ st.1 y x = false then
    (fun y1 x1 => if y1 = y ∧ x1 = x then true else st.1 y1 x1, st.2 ++ [(y, x)])
  else st

/-- The fuelled breadth-first flood fill from the perimeter: pop from the
front of the queue, try to enqueue the four neighbors. -/
def bfsLoop (H W : ℕ) (wd : ℤ → ℤ → Bool) :
    ℕ → (ℤ → ℤ → Bool) × List (ℤ × ℤ) → (ℤ → ℤ → Bool)
  | 0, st => st.1
  | fuel + 1, st =>
      match st.2 with
      | [] => st.1
      | (y, x) :: rest =>
          bfsLoop H W wd fuel
            (dirs4.foldl (fun acc d => tryEnqueue H W wd acc (y + d.1) (x + d.2)) (st.1, rest))

/-- The outside mask of extract_room_island: flood fill from every
perimeter cell through non-wall/door tiles. The fuel H * W + 1 dominates
the number of possible dequeues, every queued cell being freshly marked. -/
def computeOutside (g : List (List ℕ)) : ℤ → ℤ → Bool :=
  let H := g.length
  let W := (g.headD []).length
  let wd := fun (y x : ℤ) => isWallOrDoor g y x
  let st1 := (List.range W).foldl (fun st x =>
    tryEnqueue H W wd (tryEnqueue H W wd st 0 (x : ℤ)) ((H : ℤ) - 1) (x : ℤ))
    ((fun _ _ => false), [])
  let st2 := (List.range H).foldl (fun st y =>
    tryEnqueue H W wd (tryEnqueue H W wd st (y : ℤ) 0) (y : ℤ) ((W : ℤ) - 1)) st1
  bfsLoop H W wd (H * W + 1) st2

/-- interior: a tile whose value is not 0, 2 or 4 and which the perimeter
flood fill did not reach. -/
def interiorAt (g : List (List ℕ)) (y x : ℕ) : Bool :=
  decide (cellNat g y x ≠ 0) && !(isWallOrDoor g (y : ℤ) (x : ℤ)) &&
    !(computeOutside g (y : ℤ) (x : ℤ))

/-- boundary: a wall or door 8-connected to an interior tile. -/
def boundaryAt (g : List (List ℕ)) (y x : ℕ) : Bool :=
  isWallOrDoor g (y : ℤ) (x : ℤ) && dirs8.any (fun d =>
    decide (0 ≤ (y : ℤ) + d.1) && decide ((y : ℤ) + d.1 < (g.length : ℤ)) &&
    decide (0 ≤ (x : ℤ) + d.2) && decide ((x : ℤ) + d.2 < ((g.headD []).length : ℤ)) &&
    interiorAt g ((y : ℤ) + d.1).toNat ((x : ℤ) + d.2).toNat)

/-- The kept-cell mask: interior or boundary. -/
def maskAt (g : List (List ℕ)) (y x : ℕ) : Bool := interiorAt g y x || boundaryAt g y x

/-- extract_room_island: a grid of the same shape keeping exactly the
masked cells. -/
def extractRoomIsland (g : List (List ℕ)) : List (List ℕ) :=
  (List.range g.length).map (fun y =>
    (List.range (g.headD []).length).map (fun x =>
      if maskAt g y x then cellNat g y x else 0))

/-- One cell of the extracted island, 0 outside. -/
def islandCell (g : List (List ℕ)) (y x : ℕ) : ℕ :=
  ((extractRoomIsland g).getD y []).getD x 0

/-! ### Theorems -/

theorem carveFrame_refl (g : Grid) : CarveFrame g g := fun _ _ => Or.inl rfl

@[simp] theorem setCell_same (g : Grid) (y x : ℤ) (v : ℕ) : setCell g y x v y x = v := by
  simp [setCell]

theorem setCell_other (g : Grid) (y x : ℤ) (v : ℕ) (y1 x1 : ℤ) (h : ¬(y1 = y ∧ x1 = x)) :
    setCell g y x v y1 x1 = g y1 x1 := by
  simp [setCell, h]

theorem carveFrame_trans {g1 g2 g3 : Grid} (h12 : CarveFrame g1 g2) (h23 : CarveFrame g2 g3) :
    CarveFrame g1 g3 := by
  intro y x
  rcases h23 y x with h | ⟨hz, hv⟩
  · rcases h12 y x with h1 | ⟨hz1, hv1⟩
    · exact Or.inl (h.trans h1)
    · exact Or.inr ⟨hz1, h.trans hv1⟩
  · rcases h12 y x with h1 | ⟨hz1, hv1⟩
    · exact Or.inr ⟨h1 ▸ hz, hv⟩
    · rw [hv1] at hz; exact absurd hz (by decide)

theorem corridorWrite_frame (W H : ℤ) (g : Grid) (gy gx : ℤ) :
    CarveFrame g (corridorWrite W H g gy gx) := by
  intro y x
  unfold corridorWrite
  split
  · split
    · by_cases hyx : y = gy ∧ x = gx
      · obtain ⟨hy, hx⟩ := hyx
        subst hy; subst hx
        exact Or.inr ⟨by assumption, by simp⟩
      · exact Or.inl (setCell_other g gy gx 3 y x hyx)
    · exact Or.inl rfl
  · exact Or.inl rfl

theorem foldl_carveFrame {α : Type} (f : Grid → α → Grid)
    (hf : ∀ g a, CarveFrame g (f g a)) :
    ∀ (l : List α) (g : Grid), CarveFrame g (l.foldl f g) := by
  intro l
  induction l with
  | nil => intro g; exact carveFrame_refl g
  | cons a t ih =>
      intro g
      exact carveFrame_trans (hf g a) (ih (f g a))

theorem drawHorizontalCorridor_frame (W H cw : ℤ) (sx ex yq : ℚ) (g : Grid) :
    CarveFrame g (drawHorizontalCorridor W H cw sx ex yq g) := by
  unfold drawHorizontalCorridor
  exact foldl_carveFrame _ (fun g1 x =>
    foldl_carveFrame _ (fun g2 dy => corridorWrite_frame W H g2 _ _) _ g1) _ g

theorem drawVerticalCorridor_frame (W H cw : ℤ) (sy ey xq : ℚ) (g : Grid) :
    CarveFrame g (drawVerticalCorridor W H cw sy ey xq g) := by
  unfold drawVerticalCorridor
  exact foldl_carveFrame _ (fun g1 y =>
    foldl_carveFrame _ (fun g2 dx => corridorWrite_frame W H g2 _ _) _ g1) _ g

theorem drawDirectCorridor_frame (W H cw : ℤ) (sx sy ex ey : ℚ) (g : Grid) :
    CarveFrame g (drawDirectCorridor W H cw sx sy ex ey g) := by
  unfold drawDirectCorridor
  dsimp only
  split
  · exact carveFrame_refl g
  · exact foldl_carveFrame _ (fun g1 i =>
      foldl_carveFrame _ (fun g2 dx =>
        foldl_carveFrame _ (fun g3 dy => corridorWrite_frame W H g3 _ _) _ g2) _ g1) _ g

theorem sepForcePair_eq (sf : ℝ) (r1 r2 : PhysicsRoom) :
    sepForcePair sf r1 r2 =
      ((((r1.center.1 : ℝ) - (r2.center.1 : ℝ)) / max (1 / 10) (centerDist r1 r2)) * sf,
       (((r1.center.2 : ℝ) - (r2.center.2 : ℝ)) / max (1 / 10) (centerDist r1 r2)) * sf) := rfl

theorem roomOverlaps_symm {r1 r2 : PhysicsRoom} (h : r1.roomOverlaps r2) :
    r2.roomOverlaps r1 := by
  unfold PhysicsRoom.roomOverlaps at h ⊢
  tauto

/-- C1 (counterexample): in physics_generator separate_rooms the force on a
pair of overlapping rooms whose centers are 2 apart has magnitude equal to
separation_force (here 1), not separation_force / distance (here 1/2); and
for two rooms with coincident centers the pair contributes the zero force,
not a random unit vector. -/
theorem physics_force_counterexample :
    PhysicsRoom.roomOverlaps ⟨0, 0, 0, 10, 10, false, false⟩ ⟨1, 2, 0, 10, 10, false, false⟩ ∧
    centerDist ⟨0, 0, 0, 10, 10, false, false⟩ ⟨1, 2, 0, 10, 10, false, false⟩ = 2 ∧
    forceMag (sepForcePair 1 ⟨0, 0, 0, 10, 10, false, false⟩ ⟨1, 2, 0, 10, 10, false, false⟩) = 1 ∧
    (1 : ℝ) ≠ 1 / 2 ∧
    sepForcePair 1 ⟨2, 5, 5, 10, 10, false, false⟩ ⟨3, 5, 5, 10, 10, false, false⟩ = (0, 0) ∧
    forceMag (0, 0) = 0 ∧ (0 : ℝ) ≠ 1 := by
  have hc1 : ((PhysicsRoom.center ⟨0, 0, 0, 10, 10, false, false⟩ : ℚ × ℚ)) = (5, 5) := by
    norm_num [PhysicsRoom.center]
  have hc2 : ((PhysicsRoom.center ⟨1, 2, 0, 10, 10, false, false⟩ : ℚ × ℚ)) = (7, 5) := by
    norm_num [PhysicsRoom.center]
  have hsqrt4 : Real.sqrt 4 = 2 := by
    rw [show (4 : ℝ) = 2 ^ 2 by norm_num]
    exact Real.sqrt_sq (by norm_num)
  have hdist : centerDist ⟨0, 0, 0, 10, 10, false, false⟩ ⟨1, 2, 0, 10, 10, false, false⟩ = 2 := by
    unfold centerDist
    rw [hc1, hc2]
    norm_num
    exact hsqrt4
  refine ⟨?_, hdist, ?_, by norm_num, ?_, ?_, by norm_num⟩
  · unfold PhysicsRoom.roomOverlaps
    norm_num
  · rw [sepForcePair_eq, hdist]
    rw [hc1, hc2]
    unfold forceMag
    norm_num
  · rw [sepForcePair_eq]
    have : (PhysicsRoom.center ⟨2, 5, 5, 10, 10, false, false⟩ : ℚ × ℚ) =
        (PhysicsRoom.center ⟨3, 5, 5, 10, 10, false, false⟩ : ℚ × ℚ) := rfl
    rw [this]
    norm_num
  · unfold forceMag
    norm_num

/-- C1 (amended): the per-pair repulsive force in separate_rooms points
along the vector between the two centers scaled by a nonnegative factor;
when the centers coincide the contribution is the zero vector (no random
direction is substituted); when the center distance is at least the 0.1
clamp the magnitude equals separation_force (not separation_force divided
by the distance); and one iteration over a two-room overlapping
configuration accumulates exactly these pair forces. -/
theorem physics_separation_force (sf : ℝ) (r1 r2 : PhysicsRoom) (hsf : 0 ≤ sf) :
    (∃ c : ℝ, 0 ≤ c ∧
      sepForcePair sf r1 r2 =
        (c * ((r1.center.1 : ℝ) - (r2.center.1 : ℝ)),
         c * ((r1.center.2 : ℝ) - (r2.center.2 : ℝ)))) ∧
    (r1.center = r2.center → sepForcePair sf r1 r2 = (0, 0)) ∧
    (1 / 10 ≤ centerDist r1 r2 → forceMag (sepForcePair sf r1 r2) = sf) ∧
    (r1.roomOverlaps r2 →
      computeIterForces sf [r1, r2] = [sepForcePair sf r1 r2, sepForcePair sf r2 r1]) := by
  set dx : ℝ := ((r1.center.1 : ℝ) - (r2.center.1 : ℝ)) with hdx
  set dy : ℝ := ((r1.center.2 : ℝ) - (r2.center.2 : ℝ)) with hdy
  have hdistdef : centerDist r1 r2 = Real.sqrt (dx * dx + dy * dy) := rfl
  set D : ℝ := max (1 / 10) (centerDist r1 r2) with hD
  have hDpos : 0 < D := lt_of_lt_of_le (by norm_num) (le_max_left _ _)
  refine ⟨⟨sf / D, div_nonneg hsf hDpos.le, ?_⟩, ?_, ?_, ?_⟩
  · rw [sepForcePair_eq, ← hdx, ← hdy, ← hD]
    simp only [Prod.mk.injEq]
    constructor <;> ring
  · intro hcc
    rw [sepForcePair_eq]
    have h1 : dx = 0 := by rw [hdx, hcc]; ring
    have h2 : dy = 0 := by rw [hdy, hcc]; ring
    rw [← hdx, ← hdy, ← hD, h1, h2]
    norm_num
  · intro hge
    have hs : D = centerDist r1 r2 := max_eq_right hge
    have hspos : 0 < centerDist r1 r2 := lt_of_lt_of_le (by norm_num) hge
    rw [sepForcePair_eq, ← hdx, ← hdy, ← hD]
    unfold forceMag
    have hsq : centerDist r1 r2 * centerDist r1 r2 = dx * dx + dy * dy := by
      rw [hdistdef]
      exact Real.mul_self_sqrt (add_nonneg (mul_self_nonneg dx) (mul_self_nonneg dy))
    have : dx / D * sf * (dx / D * sf) + dy / D * sf * (dy / D * sf) = sf * sf := by
      rw [hs]
      field_simp
      nlinarith [hsq]
    simp only [this]
    exact Real.sqrt_mul_self hsf
  · intro hov
    have hov2 : r2.roomOverlaps r1 := roomOverlaps_symm hov
    have henum : List.enum [r1, r2] = [(0, r1), (1, r2)] := rfl
    simp only [computeIterForces, henum, List.map_cons, List.map_nil,
      List.foldl_cons, List.foldl_nil]
    have h00 : ¬((0 : ℕ) ≠ 0 ∧ r1.roomOverlaps r1) := by simp
    have h01 : ((0 : ℕ) ≠ 1 ∧ r1.roomOverlaps r2) := ⟨by decide, hov⟩
    have h10 : ((1 : ℕ) ≠ 0 ∧ r2.roomOverlaps r1) := ⟨by decide, hov2⟩
    have h11 : ¬((1 : ℕ) ≠ 1 ∧ r2.roomOverlaps r2) := by simp
    rw [if_neg h00, if_pos h01, if_pos h10, if_neg h11]
    simp

/-- Witness for physics_separation_force at a concrete overlapping pair. -/
theorem physics_separation_force_witness :
    (∃ c : ℝ, 0 ≤ c ∧
      sepForcePair 1 ⟨0, 0, 0, 10, 10, false, false⟩ ⟨1, 2, 0, 10, 10, false, false⟩ =
        (c * (((PhysicsRoom.center ⟨0, 0, 0, 10, 10, false, false⟩).1 : ℝ) -
              ((PhysicsRoom.center ⟨1, 2, 0, 10, 10, false, false⟩).1 : ℝ)),
         c * (((PhysicsRoom.center ⟨0, 0, 0, 10, 10, false, false⟩).2 : ℝ) -
              ((PhysicsRoom.center ⟨1, 2, 0, 10, 10, false, false⟩).2 : ℝ)))) ∧
    ((PhysicsRoom.center ⟨0, 0, 0, 10, 10, false, false⟩ : ℚ × ℚ) =
        PhysicsRoom.center ⟨1, 2, 0, 10, 10, false, false⟩ →
      sepForcePair 1 ⟨0, 0, 0, 10, 10, false, false⟩ ⟨1, 2, 0, 10, 10, false, false⟩ = (0, 0)) ∧
    (1 / 10 ≤ centerDist ⟨0, 0, 0, 10, 10, false, false⟩ ⟨1, 2, 0, 10, 10, false, false⟩ →
      forceMag (sepForcePair 1 ⟨0, 0, 0, 10, 10, false, false⟩ ⟨1, 2, 0, 10, 10, false, false⟩) = 1) ∧
    (PhysicsRoom.roomOverlaps ⟨0, 0, 0, 10, 10, false, false⟩ ⟨1, 2, 0, 10, 10, false, false⟩ →
      computeIterForces 1 [⟨0, 0, 0, 10, 10, false, false⟩, ⟨1, 2, 0, 10, 10, false, false⟩] =
        [sepForcePair 1 ⟨0, 0, 0, 10, 10, false, false⟩ ⟨1, 2, 0, 10, 10, false, false⟩,
         sepForcePair 1 ⟨1, 2, 0, 10, 10, false, false⟩ ⟨0, 0, 0, 10, 10, false, false⟩]) :=
  physics_separation_force 1 _ _ (by norm_num)

theorem drawCorridors_frame (W H cw : ℤ) (cs : List Corridor) (g : Grid) :
    CarveFrame g (drawCorridors W H cw cs g) := by
  unfold drawCorridors
  refine foldl_carveFrame _ (fun g1 c => ?_) cs g
  match hc : c.direction with
  | CorridorDirection.horizontal => simp [hc]; exact drawHorizontalCorridor_frame W H cw _ _ _ g1
  | CorridorDirection.vertical => simp [hc]; exact drawVerticalCorridor_frame W H cw _ _ _ g1
  | CorridorDirection.direct => simp [hc]; exact drawDirectCorridor_frame W H cw _ _ _ _ g1

theorem insertByAreaDesc_perm (x : ℕ × PhysicsRoom) (l : List (ℕ × PhysicsRoom)) :
    List.Perm (insertByAreaDesc x l) (x :: l) := by
  induction l with
  | nil => rfl
  | cons y ys ih =>
      unfold insertByAreaDesc
      split
      · rfl
      · exact ((ih.cons y).trans (List.Perm.swap x y ys))

theorem sortByAreaDesc_perm (l : List (ℕ × PhysicsRoom)) : List.Perm (sortByAreaDesc l) l := by
  induction l with
  | nil => rfl
  | cons x xs ih =>
      have : sortByAreaDesc (x :: xs) = insertByAreaDesc x (sortByAreaDesc xs) := rfl
      rw [this]
      exact (insertByAreaDesc_perm x (sortByAreaDesc xs)).trans (ih.cons x)

theorem pairwise_insertByAreaDesc (x : ℕ × PhysicsRoom) (l : List (ℕ × PhysicsRoom))
    (hl : l.Pairwise (fun p q => q.2.area ≤ p.2.area)) :
    (insertByAreaDesc x l).Pairwise (fun p q => q.2.area ≤ p.2.area) := by
  induction l with
  | nil => simp [insertByAreaDesc]
  | cons y ys ih =>
      unfold insertByAreaDesc
      split
      · refine List.Pairwise.cons ?_ hl
        intro z hz
        rcases List.mem_cons.mp hz with hz | hz
        · subst hz; assumption
        · exact le_trans (List.rel_of_pairwise_cons hl hz) (by assumption)
      · rename_i hnot
        refine List.Pairwise.cons ?_ (ih (List.Pairwise.of_cons hl))
        intro z hz
        have hz2 : z ∈ x :: ys := (insertByAreaDesc_perm x ys).mem_iff.mp hz
        rcases List.mem_cons.mp hz2 with hz3 | hz3
        · subst hz3; exact le_of_not_le hnot
        · exact List.rel_of_pairwise_cons hl hz3

theorem sortByAreaDesc_pairwise (l : List (ℕ × PhysicsRoom)) :
    (sortByAreaDesc l).Pairwise (fun p q => q.2.area ≤ p.2.area) := by
  induction l with
  | nil => simp [sortByAreaDesc]
  | cons x xs ih => exact pairwise_insertByAreaDesc x (sortByAreaDesc xs) ih

theorem area_setMain (r : PhysicsRoom) (b : Bool) : ({ r with isMain := b } : PhysicsRoom).area = r.area := rfl

theorem mem_of_mem_enum {α : Type} {p : ℕ × α} : ∀ {l : List α} {n : ℕ}, p ∈ l.enumFrom n → p.2 ∈ l := by
  intro l
  induction l with
  | nil => intro n h; simp [List.enumFrom] at h
  | cons x xs ih =>
      intro n h
      rw [show (x :: xs).enumFrom n = (n, x) :: xs.enumFrom (n + 1) from rfl] at h
      rcases List.mem_cons.mp h with h | h
      · rw [h]; exact List.mem_cons_self x xs
      · exact List.mem_cons_of_mem x (ih h)

theorem filter_marked_length (threshold : ℚ) (rooms : List PhysicsRoom) :
    ((rooms.map (fun r =>
        if passesThreshold threshold r then { r with isMain := true } else r)).filter
          (fun r => decide (passesThreshold threshold r))).length =
      (rooms.filter (fun r => decide (passesThreshold threshold r))).length := by
  induction rooms with
  | nil => rfl
  | cons r t ih =>
      by_cases hp : passesThreshold threshold r
      · have hp2 : passesThreshold threshold ({ r with isMain := true } : PhysicsRoom) := hp
        simp [hp, hp2, List.filter_cons, ih]
      · simp [hp, List.filter_cons, ih]

/-- C5 (counterexample): with defaults mean 8, threshold multiplier 5/4
(threshold 10), a room of width 20 and height 1 has area 20, which meets
the threshold, yet select_main_rooms does not mark it main because the
code tests width and height separately against the threshold. -/
theorem select_main_rooms_counterexample :
    ((selectMainRooms 8 (5 / 4) 3 (3 / 10)
        [⟨0, 0, 0, 10, 10, false, false⟩, ⟨1, 0, 0, 10, 10, false, false⟩,
         ⟨2, 0, 0, 10, 10, false, false⟩, ⟨3, 0, 0, 20, 1, false, false⟩]).1.map
        PhysicsRoom.isMain) = [true, true, true, false] ∧
    (8 : ℚ) * (5 / 4) ≤ ((PhysicsRoom.area ⟨3, 0, 0, 20, 1, false, false⟩ : ℤ) : ℚ) := by
  constructor
  · norm_num [selectMainRooms, passesThreshold, List.filter]
  · norm_num [PhysicsRoom.area]

/-- C5 (amended): select_main_rooms marks as main exactly those rooms whose
width and height each reach room_size_mean * main_room_threshold, provided
at least min_main_rooms qualify; otherwise it clears the selection and
takes the top-K rooms by area (K = min(num_rooms, max(min_main_rooms,
int(num_rooms * selection_ratio)))), every selected room having area at
least that of every unselected room. -/
theorem select_main_rooms_spec (mean : ℤ) (mult ratio : ℚ) (minMain : ℕ)
    (rooms : List PhysicsRoom) (hfresh : ∀ r ∈ rooms, r.isMain = false) :
    ((minMain ≤ (rooms.filter (fun r => decide (passesThreshold ((mean : ℚ) * mult) r))).length ∨
        rooms.length = 0) →
      (selectMainRooms mean mult minMain ratio rooms).1.map PhysicsRoom.isMain =
        rooms.map (fun r => decide (passesThreshold ((mean : ℚ) * mult) r))) ∧
    ((rooms.filter (fun r => decide (passesThreshold ((mean : ℚ) * mult) r))).length < minMain →
      0 < rooms.length →
      (selectMainRooms mean mult minMain ratio rooms).2.length =
        min (max minMain (pyInt ((rooms.length : ℚ) * ratio)).toNat) rooms.length ∧
      (∀ r ∈ (selectMainRooms mean mult minMain ratio rooms).2, r.isMain = true) ∧
      ∃ rest : List PhysicsRoom,
        List.Perm (((selectMainRooms mean mult minMain ratio rooms).2.map clearMain) ++ rest) rooms ∧
        ∀ a ∈ (selectMainRooms mean mult minMain ratio rooms).2, ∀ b ∈ rest,
          b.area ≤ a.area) := by
  have hfiltlen := filter_marked_length ((mean : ℚ) * mult) rooms
  constructor
  · intro hcase
    unfold selectMainRooms
    have hcond : ¬((((rooms.map (fun r =>
        if passesThreshold ((mean : ℚ) * mult) r then { r with isMain := true } else r)).filter
          (fun r => decide (passesThreshold ((mean : ℚ) * mult) r))).length < minMain) ∧
        0 < rooms.length) := by
      rw [hfiltlen]
      rcases hcase with h | h
      · intro hc; exact absurd h (not_le.mpr hc.1)
      · intro hc; omega
    rw [if_neg hcond]
    simp only [List.map_map]
    refine List.map_congr_left ?_
    intro r hr
    by_cases hp : passesThreshold ((mean : ℚ) * mult) r
    · simp [Function.comp, hp]
    · simp [Function.comp, hp, hfresh r hr]
  · intro hlt hpos
    unfold selectMainRooms
    have hcond : ((((rooms.map (fun r =>
        if passesThreshold ((mean : ℚ) * mult) r then { r with isMain := true } else r)).filter
          (fun r => decide (passesThreshold ((mean : ℚ) * mult) r))).length < minMain) ∧
        0 < rooms.length) := by
      rw [hfiltlen]; exact ⟨hlt, hpos⟩
    rw [if_pos hcond]
    simp only
    set srt := sortByAreaDesc rooms.enum with hsrt
    set k := min (max minMain (pyInt ((rooms.length : ℚ) * ratio)).toNat) rooms.length with hk
    have hperm : List.Perm srt rooms.enum := sortByAreaDesc_perm rooms.enum
    have hlen : srt.length = rooms.length := by
      rw [hperm.length_eq, List.enum_length]
    refine ⟨?_, ?_, ?_⟩
    · simp only [List.length_map, List.length_take]
      omega
    · intro r hr
      simp only [List.mem_map] at hr
      obtain ⟨p, _, hp⟩ := hr
      rw [← hp]
    · refine ⟨(srt.drop k).map Prod.snd, ?_, ?_⟩
      · have hmapeq : ((srt.take k).map (fun p => ({ p.2 with isMain := true} : PhysicsRoom))).map clearMain
            = (srt.take k).map Prod.snd := by
          simp only [List.map_map]
          refine List.map_congr_left ?_
          intro p hp
          have hpmem : p ∈ rooms.enum := hperm.mem_iff.mp (List.mem_of_mem_take hp)
          have hsnd : p.2 ∈ rooms := mem_of_mem_enum hpmem
          have hfalse : p.2.isMain = false := hfresh p.2 hsnd
          show clearMain { p.2 with isMain := true } = p.2
          unfold clearMain
          cases hq : p.2 with
          | mk i xx yy ww hh mm hw =>
              rw [hq] at hfalse
              simp at hfalse
              simp [hfalse]
        rw [hmapeq]
        have : (srt.take k).map Prod.snd ++ (srt.drop k).map Prod.snd = srt.map Prod.snd := by
          rw [← List.map_append, List.take_append_drop]
        rw [this]
        have := (hperm.map Prod.snd)
        rw [List.enum_map_snd] at this
        exact this
      · intro a ha b hb
        simp only [List.mem_map] at ha hb
        obtain ⟨p, hp, hpa⟩ := ha
        obtain ⟨q, hq, hqb⟩ := hb
        have hpw := sortByAreaDesc_pairwise rooms.enum
        rw [← hsrt, ← List.take_append_drop k srt, List.pairwise_append] at hpw
        have := hpw.2.2 p hp q hq
        rw [← hpa, ← hqb, area_setMain]
        exact this

/-- Witness for select_main_rooms_spec at a concrete room list. -/
theorem select_main_rooms_spec_witness :
    ((3 ≤ ([⟨0, 0, 0, 10, 10, false, false⟩, ⟨1, 0, 0, 10, 10, false, false⟩,
          ⟨2, 0, 0, 10, 10, false, false⟩, ⟨3, 0, 0, 20, 1, false, false⟩].filter
            (fun r : PhysicsRoom => decide (passesThreshold ((8 : ℚ) * (5 / 4)) r))).length ∨
        ([⟨0, 0, 0, 10, 10, false, false⟩, ⟨1, 0, 0, 10, 10, false, false⟩,
          ⟨2, 0, 0, 10, 10, false, false⟩, ⟨3, 0, 0, 20, 1, false, false⟩] : List PhysicsRoom).length = 0) →
      (selectMainRooms 8 (5 / 4) 3 (3 / 10)
          [⟨0, 0, 0, 10, 10, false, false⟩, ⟨1, 0, 0, 10, 10, false, false⟩,
           ⟨2, 0, 0, 10, 10, false, false⟩, ⟨3, 0, 0, 20, 1, false, false⟩]).1.map
          PhysicsRoom.isMain =
        [⟨0, 0, 0, 10, 10, false, false⟩, ⟨1, 0, 0, 10, 10, false, false⟩,
         ⟨2, 0, 0, 10, 10, false, false⟩, ⟨3, 0, 0, 20, 1, false, false⟩].map
          (fun r : PhysicsRoom => decide (passesThreshold ((8 : ℚ) * (5 / 4)) r))) ∧
    ((([⟨0, 0, 0, 10, 10, false, false⟩, ⟨1, 0, 0, 10, 10, false, false⟩,
          ⟨2, 0, 0, 10, 10, false, false⟩, ⟨3, 0, 0, 20, 1, false, false⟩].filter
            (fun r : PhysicsRoom => decide (passesThreshold ((8 : ℚ) * (5 / 4)) r))).length < 3 →
      0 < ([⟨0, 0, 0, 10, 10, false, false⟩, ⟨1, 0, 0, 10, 10, false, false⟩,
          ⟨2, 0, 0, 10, 10, false, false⟩, ⟨3, 0, 0, 20, 1, false, false⟩] : List PhysicsRoom).length →
      (selectMainRooms 8 (5 / 4) 3 (3 / 10)
          [⟨0, 0, 0, 10, 10, false, false⟩, ⟨1, 0, 0, 10, 10, false, false⟩,
           ⟨2, 0, 0, 10, 10, false, false⟩, ⟨3, 0, 0, 20, 1, false, false⟩]).2.length =
        min (max 3 (pyInt ((([⟨0, 0, 0, 10, 10, false, false⟩, ⟨1, 0, 0, 10, 10, false, false⟩,
          ⟨2, 0, 0, 10, 10, false, false⟩, ⟨3, 0, 0, 20, 1, false, false⟩] : List PhysicsRoom).length : ℚ) * (3 / 10))).toNat)
          ([⟨0, 0, 0, 10, 10, false, false⟩, ⟨1, 0, 0, 10, 10, false, false⟩,
          ⟨2, 0, 0, 10, 10, false, false⟩, ⟨3, 0, 0, 20, 1, false, false⟩] : List PhysicsRoom).length ∧
      (∀ r ∈ (selectMainRooms 8 (5 / 4) 3 (3 / 10)
          [⟨0, 0, 0, 10, 10, false, false⟩, ⟨1, 0, 0, 10, 10, false, false⟩,
           ⟨2, 0, 0, 10, 10, false, false⟩, ⟨3, 0, 0, 20, 1, false, false⟩]).2, r.isMain = true) ∧
      ∃ rest : List PhysicsRoom,
        List.Perm (((selectMainRooms 8 (5 / 4) 3 (3 / 10)
            [⟨0, 0, 0, 10, 10, false, false⟩, ⟨1, 0, 0, 10, 10, false, false⟩,
             ⟨2, 0, 0, 10, 10, false, false⟩, ⟨3, 0, 0, 20, 1, false, false⟩]).2.map clearMain) ++ rest)
          [⟨0, 0, 0, 10, 10, false, false⟩, ⟨1, 0, 0, 10, 10, false, false⟩,
           ⟨2, 0, 0, 10, 10, false, false⟩, ⟨3, 0, 0, 20, 1, false, false⟩] ∧
        ∀ a ∈ (selectMainRooms 8 (5 / 4) 3 (3 / 10)
            [⟨0, 0, 0, 10, 10, false, false⟩, ⟨1, 0, 0, 10, 10, false, false⟩,
             ⟨2, 0, 0, 10, 10, false, false⟩, ⟨3, 0, 0, 20, 1, false, false⟩]).2, ∀ b ∈ rest,
          b.area ≤ a.area)) :=
  select_main_rooms_spec 8 (5 / 4) (3 / 10) 3
    [⟨0, 0, 0, 10, 10, false, false⟩, ⟨1, 0, 0, 10, 10, false, false⟩,
     ⟨2, 0, 0, 10, 10, false, false⟩, ⟨3, 0, 0, 20, 1, false, false⟩] (by decide)

/-- C4: during corridor rasterization on the physics path every cell either
keeps its previous value or was void 0 and becomes corridor 3; carving
never changes a cell already painted as room interior, wall, corridor or
marker, for every corridor configuration and every starting grid. -/
theorem corridor_carving_writes_only_void (W H cw : ℤ) (cs : List Corridor) (g : Grid)
    (y x : ℤ) :
    drawCorridors W H cw cs g y x = g y x ∨ (g y x = 0 ∧ drawCorridors W H cw cs g y x = 3) :=
  drawCorridors_frame W H cw cs g y x

/-- C6 (counterexample): with min_door_length 1 and max_door_length 3, a
shared wall of length 12 receives a door run of length 3 (the
max_door_length cap), not max(min_door_length, len / 3) = 4. -/
theorem door_length_counterexample :
    (placeDoorsBetweenAdjacentRooms ⟨1, 1, 3⟩ [(0, 1)] (fun _ => 0)
        [⟨0, 0, 5, 0, 12, false, []⟩, ⟨1, 5, 10, 0, 12, false, []⟩]).map AdjRoom.doors =
      [[(5, 5), (5, 6), (5, 7)], [(5, 5), (5, 6), (5, 7)]] ∧
    (getSharedWall ⟨0, 0, 5, 0, 12, false, []⟩ ⟨1, 5, 10, 0, 12, false, []⟩).map List.length =
      some 12 ∧
    ¬((3 : ℕ) = max 1 (12 / 3)) := by
  have hadj : isAdjacent ⟨0, 0, 5, 0, 12, false, []⟩ ⟨1, 5, 10, 0, 12, false, []⟩ := by
    unfold isAdjacent
    norm_num
  have hrange : intRange 0 12 = [0, 1, 2, 3, 4, 5, 6, 7, 8, 9, 10, 11] := by rfl
  have hwall : getSharedWall ⟨0, 0, 5, 0, 12, false, []⟩ ⟨1, 5, 10, 0, 12, false, []⟩ =
      some [(5, 0), (5, 1), (5, 2), (5, 3), (5, 4), (5, 5), (5, 6), (5, 7), (5, 8), (5, 9),
            (5, 10), (5, 11)] := by
    unfold getSharedWall
    rw [if_neg (not_not.mpr hadj)]
    norm_num [pyInt, hrange]
    intro h
    simp at h
  have hwin : doorWindow 1 3 [((5 : ℤ), (0 : ℤ)), (5, 1), (5, 2), (5, 3), (5, 4), (5, 5), (5, 6),
      (5, 7), (5, 8), (5, 9), (5, 10), (5, 11)] = [(5, 5), (5, 6), (5, 7)] := by
    unfold doorWindow
    norm_num
    decide
  refine ⟨?_, by rw [hwall]; rfl, by decide⟩
  have hfind : findEdgeRooms
      [⟨0, 0, 5, 0, 12, false, []⟩, ⟨1, 5, 10, 0, 12, false, []⟩] ((0 : ℕ), (1 : ℕ)) =
      (some 0, some 1) := by rfl
  have hg0 : ([⟨0, 0, 5, 0, 12, false, []⟩, ⟨1, 5, 10, 0, 12, false, []⟩] : List AdjRoom).getD 0
      default = ⟨0, 0, 5, 0, 12, false, []⟩ := rfl
  have hg1 : ([⟨0, 0, 5, 0, 12, false, []⟩, ⟨1, 5, 10, 0, 12, false, []⟩] : List AdjRoom).getD 1
      default = ⟨1, 5, 10, 0, 12, false, []⟩ := rfl
  unfold placeDoorsBetweenAdjacentRooms
  simp only [List.foldl_cons, List.foldl_nil]
  unfold placeDoorsStep
  simp only [hfind, hg0, hg1, hwall, hwin]
  norm_num [List.set]

theorem sharedWall_example :
    getSharedWall ⟨0, 0, 5, 0, 12, false, []⟩ ⟨1, 5, 10, 0, 12, false, []⟩ =
      some [(5, 0), (5, 1), (5, 2), (5, 3), (5, 4), (5, 5), (5, 6), (5, 7), (5, 8), (5, 9),
            (5, 10), (5, 11)] := by
  have hadj : isAdjacent ⟨0, 0, 5, 0, 12, false, []⟩ ⟨1, 5, 10, 0, 12, false, []⟩ := by
    unfold isAdjacent
    norm_num
  have hrange : intRange 0 12 = [0, 1, 2, 3, 4, 5, 6, 7, 8, 9, 10, 11] := by rfl
  unfold getSharedWall
  rw [if_neg (not_not.mpr hadj)]
  norm_num [pyInt, hrange]
  intro h
  simp at h

/-- C6 (amended): when an edge of the adjacency graph is selected for a
door, the run placed on both rooms is the shared-wall slice computed by
doorWindow, and its length is min(min(max_door_length,
max(min_door_length, len // 3)), len) — the claimed max(min_door_length,
len / 3) additionally capped by max_door_length and by the wall itself. -/
theorem door_window_spec (p : DoorParams) (rng : ℕ → ℚ) (rooms : List AdjRoom)
    (e : ℕ × ℕ) (i1 i2 : ℕ) (wall : List (ℤ × ℤ))
    (hfind : findEdgeRooms rooms e = (some i1, some i2))
    (hsel : rng 0 < p.doorProbability)
    (hwall : getSharedWall (rooms.getD i1 default) (rooms.getD i2 default) = some wall)
    (hne : 0 < wall.length) :
    placeDoorsBetweenAdjacentRooms p [e] rng rooms =
      ((rooms.set i1 { rooms.getD i1 default with
          doors := (rooms.getD i1 default).doors ++
            doorWindow p.minDoorLength p.maxDoorLength wall }).set i2
        { rooms.getD i2 default with
          doors := (rooms.getD i2 default).doors ++
            doorWindow p.minDoorLength p.maxDoorLength wall }) ∧
    (doorWindow p.minDoorLength p.maxDoorLength wall).length =
      min (min p.maxDoorLength (max p.minDoorLength (wall.length / 3))) wall.length := by
  constructor
  · unfold placeDoorsBetweenAdjacentRooms
    simp only [List.foldl_cons, List.foldl_nil, placeDoorsStep]
    rw [hfind]
    dsimp only
    rw [if_pos hsel, hwall]
    dsimp only
    rw [if_pos hne]
  · simp only [doorWindow, List.length_take, List.length_drop]
    omega

/-- Witness for door_window_spec at the concrete adjacent pair. -/
theorem door_window_spec_witness :
    (doorWindow 1 3 [((5 : ℤ), (0 : ℤ)), (5, 1), (5, 2), (5, 3), (5, 4), (5, 5), (5, 6), (5, 7),
        (5, 8), (5, 9), (5, 10), (5, 11)]).length =
      min (min 3 (max 1 (([((5 : ℤ), (0 : ℤ)), (5, 1), (5, 2), (5, 3), (5, 4), (5, 5), (5, 6),
        (5, 7), (5, 8), (5, 9), (5, 10), (5, 11)] : List (ℤ × ℤ)).length / 3)))
        ([((5 : ℤ), (0 : ℤ)), (5, 1), (5, 2), (5, 3), (5, 4), (5, 5), (5, 6), (5, 7), (5, 8),
          (5, 9), (5, 10), (5, 11)] : List (ℤ × ℤ)).length :=
  (door_window_spec ⟨1, 1, 3⟩ (fun _ => 0)
      [⟨0, 0, 5, 0, 12, false, []⟩, ⟨1, 5, 10, 0, 12, false, []⟩] (0, 1) 0 1 _
      (by rfl) (by norm_num) sharedWall_example (by decide)).2

theorem getD_mem {l : List AdjRoom} {i : ℕ} (h : i < l.length) : l.getD i default ∈ l := by
  rw [List.getD_eq_get l default h]
  exact List.get_mem l i h

theorem enumFrom_getD {l : List AdjRoom} :
    ∀ {n : ℕ} {p : ℕ × AdjRoom}, p ∈ l.enumFrom n →
      n ≤ p.1 ∧ p.1 - n < l.length ∧ l.getD (p.1 - n) default = p.2 := by
  induction l with
  | nil => intro n p h; simp [List.enumFrom] at h
  | cons x xs ih =>
      intro n p h
      rw [show (x :: xs).enumFrom n = (n, x) :: xs.enumFrom (n + 1) from rfl] at h
      rcases List.mem_cons.mp h with h | h
      · subst h
        refine ⟨le_refl n, ?_, ?_⟩
        · simp
        · simp [List.getD]
      · obtain ⟨h1, h2, h3⟩ := ih h
        refine ⟨by omega, by simp; omega, ?_⟩
        have : p.1 - n = (p.1 - (n + 1)) + 1 := by omega
        rw [this]
        simpa using h3

theorem findEdgeRooms_spec (rooms : List AdjRoom) (e : ℕ × ℕ) (i1 i2 : ℕ)
    (h : findEdgeRooms rooms e = (some i1, some i2)) :
    i1 < rooms.length ∧ i2 < rooms.length ∧ (rooms.getD i1 default).id = e.1 ∧
      (rooms.getD i2 default).id = e.2 ∧ e.1 ≠ e.2 := by
  have main : ∀ (l : List (ℕ × AdjRoom)) (acc : Option ℕ × Option ℕ),
      (∀ p ∈ l, p.1 < rooms.length ∧ rooms.getD p.1 default = p.2) →
      (∀ i, acc.1 = some i → i < rooms.length ∧ (rooms.getD i default).id = e.1) →
      (∀ i, acc.2 = some i →
        i < rooms.length ∧ (rooms.getD i default).id = e.2 ∧ e.1 ≠ e.2) →
      (∀ i, (l.foldl (fun acc p => if p.2.id = e.1 then (some p.1, acc.2)
          else if p.2.id = e.2 then (acc.1, some p.1) else acc) acc).1 = some i →
          i < rooms.length ∧ (rooms.getD i default).id = e.1) ∧
      (∀ i, (l.foldl (fun acc p => if p.2.id = e.1 then (some p.1, acc.2)
          else if p.2.id = e.2 then (acc.1, some p.1) else acc) acc).2 = some i →
          i < rooms.length ∧ (rooms.getD i default).id = e.2 ∧ e.1 ≠ e.2) := by
    intro l
    induction l with
    | nil => intro acc _ h1 h2; exact ⟨h1, h2⟩
    | cons q t ih =>
        intro acc hl h1 h2
        simp only [List.foldl_cons]
        by_cases hq1 : q.2.id = e.1
        · rw [if_pos hq1]
          refine ih _ (fun p hp => hl p (List.mem_cons_of_mem q hp)) ?_ h2
          intro i hi
          simp at hi
          subst hi
          obtain ⟨hlt, hget⟩ := hl q (List.mem_cons_self q t)
          exact ⟨hlt, by rw [hget]; exact hq1⟩
        · rw [if_neg hq1]
          by_cases hq2 : q.2.id = e.2
          · rw [if_pos hq2]
            refine ih _ (fun p hp => hl p (List.mem_cons_of_mem q hp)) h1 ?_
            intro i hi
            simp at hi
            subst hi
            obtain ⟨hlt, hget⟩ := hl q (List.mem_cons_self q t)
            refine ⟨hlt, by rw [hget]; exact hq2, ?_⟩
            intro hee
            exact hq1 (by rw [hee]; exact hq2)
          · rw [if_neg hq2]
            exact ih _ (fun p hp => hl p (List.mem_cons_of_mem q hp)) h1 h2
  have henum : ∀ p ∈ rooms.enum, p.1 < rooms.length ∧ rooms.getD p.1 default = p.2 := by
    intro p hp
    have := enumFrom_getD (l := rooms) (n := 0) hp
    simpa using this
  have hres := main rooms.enum (none, none) henum (by intro i hi; simp at hi)
    (by intro i hi; simp at hi)
  unfold findEdgeRooms at h
  obtain ⟨hA, hB⟩ := hres
  have h1 := hA i1 (by rw [h])
  have h2 := hB i2 (by rw [h])
  exact ⟨h1.1, h2.1, h1.2, h2.2.1, h2.2.2⟩

theorem getD_set_self {l : List AdjRoom} {i : ℕ} (h : i < l.length) (a : AdjRoom) :
    (l.set i a).getD i default = a := by
  rw [List.getD_eq_getElem _ default (by simpa using h)]
  exact List.getElem_set_self _

theorem getD_set_ne {l : List AdjRoom} {i j : ℕ} (h : i ≠ j) (a : AdjRoom) :
    (l.set i a).getD j default = l.getD j default := by
  by_cases hj : j < l.length
  · rw [List.getD_eq_getElem _ default (by simpa using hj), List.getD_eq_getElem _ default hj]
    exact List.getElem_set_ne h _
  · have h1 : l.length ≤ j := le_of_not_lt hj
    rw [List.getD_eq_default _ default (by simpa using h1),
      List.getD_eq_default _ default h1]

theorem placeDoorsStep_getD (p : DoorParams) (rng : ℕ → ℚ) (st : List AdjRoom × ℕ)
    (e : ℕ × ℕ) :
    (placeDoorsStep p rng st e).1.length = st.1.length ∧
    ∀ j : ℕ, ((placeDoorsStep p rng st e).1.getD j default).id = (st.1.getD j default).id ∧
      ∀ d ∈ (st.1.getD j default).doors, d ∈ ((placeDoorsStep p rng st e).1.getD j default).doors := by
  simp only [placeDoorsStep]
  rcases hf : findEdgeRooms st.1 e with ⟨o1, o2⟩
  rcases o1 with _ | i1 <;> rcases o2 with _ | i2
  · exact ⟨rfl, fun j => ⟨rfl, fun d hd => hd⟩⟩
  · exact ⟨rfl, fun j => ⟨rfl, fun d hd => hd⟩⟩
  · exact ⟨rfl, fun j => ⟨rfl, fun d hd => hd⟩⟩
  · dsimp only
    by_cases hsel : rng st.2 < p.doorProbability
    · rw [if_pos hsel]
      rcases hw : getSharedWall (st.1.getD i1 default) (st.1.getD i2 default) with _ | wall
      · exact ⟨rfl, fun j => ⟨rfl, fun d hd => hd⟩⟩
      · dsimp only
        by_cases hlen : 0 < wall.length
        · rw [if_pos hlen]
          obtain ⟨hi1, hi2, hid1, hid2, hne⟩ := findEdgeRooms_spec st.1 e i1 i2 hf
          have hii : i1 ≠ i2 := by
            intro hcon
            rw [hcon] at hid1
            exact hne (hid1 ▸ hid2 ▸ rfl)
          constructor
          · simp
          · intro j
            by_cases hj2 : j = i2
            · subst hj2
              rw [getD_set_self (by simpa using hi2)]
              exact ⟨rfl, fun d hd => List.mem_append_left _ hd⟩
            · rw [getD_set_ne (fun hcon => hj2 hcon.symm)]
              by_cases hj1 : j = i1
              · subst hj1
                rw [getD_set_self hi1]
                exact ⟨rfl, fun d hd => List.mem_append_left _ hd⟩
              · rw [getD_set_ne (fun hcon => hj1 hcon.symm)]
                exact ⟨rfl, fun d hd => hd⟩
        · rw [if_neg hlen]
          exact ⟨rfl, fun j => ⟨rfl, fun d hd => hd⟩⟩
    · rw [if_neg hsel]
      exact ⟨rfl, fun j => ⟨rfl, fun d hd => hd⟩⟩

theorem placeDoorsStep_mono (p : DoorParams) (rng : ℕ → ℚ) (st : List AdjRoom × ℕ)
    (e : ℕ × ℕ) :
    ∀ v ∈ st.1, ∃ v2 ∈ (placeDoorsStep p rng st e).1, v2.id = v.id ∧
      ∀ d ∈ v.doors, d ∈ v2.doors := by
  intro v hv
  obtain ⟨⟨j, hj⟩, hget⟩ := List.mem_iff_get.mp hv
  have hgetD : st.1.getD j default = v := by
    rw [List.getD_eq_get _ default hj]; exact hget
  obtain ⟨hlen, hprop⟩ := placeDoorsStep_getD p rng st e
  obtain ⟨hid, hdoors⟩ := hprop j
  refine ⟨(placeDoorsStep p rng st e).1.getD j default, getD_mem (by omega), ?_, ?_⟩
  · rw [hid, hgetD]
  · rw [← hgetD]
    exact hdoors

theorem doorSym_update (edges : List (ℕ × ℕ)) (rooms : List AdjRoom) (e : ℕ × ℕ)
    (he : e ∈ edges) (i1 i2 : ℕ) (hi1 : i1 < rooms.length) (hi2 : i2 < rooms.length)
    (hid1 : (rooms.getD i1 default).id = e.1) (hid2 : (rooms.getD i2 default).id = e.2)
    (hne : e.1 ≠ e.2) (win : List (ℤ × ℤ)) (hinv : DoorSym edges rooms) :
    DoorSym edges ((rooms.set i1 { rooms.getD i1 default with
        doors := (rooms.getD i1 default).doors ++ win }).set i2
      { rooms.getD i2 default with doors := (rooms.getD i2 default).doors ++ win }) := by
  have hii : i1 ≠ i2 := by
    intro hcon
    exact hne (by rw [← hid1, hcon, hid2])
  set base1 := rooms.getD i1 default with hbase1
  set base2 := rooms.getD i2 default with hbase2
  set r1p : AdjRoom := { base1 with doors := base1.doors ++ win } with hr1p
  set r2p : AdjRoom := { base2 with doors := base2.doors ++ win } with hr2p
  set N := (rooms.set i1 r1p).set i2 r2p with hN
  have hlen1 : (rooms.set i1 r1p).length = rooms.length := by simp
  have hlenN : N.length = rooms.length := by simp [hN]
  have hN2 : N.getD i2 default = r2p := by
    rw [hN]; exact getD_set_self (by omega) r2p
  have hN1 : N.getD i1 default = r1p := by
    rw [hN, getD_set_ne (fun hcon => hii hcon.symm)]
    exact getD_set_self hi1 r1p
  have hmem1 : r1p ∈ N := by rw [← hN1]; exact getD_mem (by omega)
  have hmem2 : r2p ∈ N := by rw [← hN2]; exact getD_mem (by omega)
  have hmono : ∀ v ∈ rooms, ∃ v2 ∈ N, v2.id = v.id ∧ ∀ d0 ∈ v.doors, d0 ∈ v2.doors := by
    intro v hv
    obtain ⟨⟨j, hj⟩, hget⟩ := List.mem_iff_get.mp hv
    have hgetD : rooms.getD j default = v := by
      rw [List.getD_eq_getElem _ default hj]
      exact hget
    by_cases hj2 : j = i2
    · subst hj2
      refine ⟨r2p, hmem2, ?_, ?_⟩
      · rw [hr2p, hbase2, hgetD]
      · intro d0 hd0
        rw [hr2p]
        refine List.mem_append_left _ ?_
        rw [hbase2, hgetD]
        exact hd0
    · by_cases hj1 : j = i1
      · subst hj1
        refine ⟨r1p, hmem1, ?_, ?_⟩
        · rw [hr1p, hbase1, hgetD]
        · intro d0 hd0
          rw [hr1p]
          refine List.mem_append_left _ ?_
          rw [hbase1, hgetD]
          exact hd0
      · have hNj : N.getD j default = v := by
          rw [hN, getD_set_ne (fun hcon => hj2 hcon.symm),
            getD_set_ne (fun hcon => hj1 hcon.symm), hgetD]
        refine ⟨v, ?_, rfl, fun d0 hd0 => hd0⟩
        rw [← hNj]
        exact getD_mem (by omega)
  have hlift : ∀ rOld : AdjRoom, rOld ∈ rooms → ∀ d ∈ rOld.doors,
      ∃ r2 ∈ N, r2.id ≠ rOld.id ∧ d ∈ r2.doors ∧
        ∃ e0 ∈ edges, (e0.1 = rOld.id ∧ e0.2 = r2.id) ∨ (e0.1 = r2.id ∧ e0.2 = rOld.id) := by
    intro rOld hrOld d hd
    obtain ⟨r2, hr2mem, hidne, hdin, e0, he0, hrel⟩ := hinv rOld hrOld d hd
    obtain ⟨v2, hv2, hideq, hsub⟩ := hmono r2 hr2mem
    refine ⟨v2, hv2, by rw [hideq]; exact hidne, hsub d hdin, e0, he0, ?_⟩
    rw [hideq]
    exact hrel
  intro r hr d hd
  rcases List.mem_or_eq_of_mem_set hr with hr1 | hr1
  · rcases List.mem_or_eq_of_mem_set hr1 with hr0 | hr0
    · exact hlift r hr0 d hd
    · subst hr0
      rw [hr1p] at hd
      rcases List.mem_append.mp hd with hd0 | hd0
      · have := hlift base1 (by rw [hbase1]; exact getD_mem hi1) d hd0
        simpa [hr1p] using this
      · refine ⟨r2p, hmem2, ?_, ?_, e, he, ?_⟩
        · show r2p.id ≠ r1p.id
          rw [hr2p, hr1p]
          show base2.id ≠ base1.id
          rw [hbase1, hbase2, hid1, hid2]
          exact fun hcon => hne hcon.symm
        · rw [hr2p]
          exact List.mem_append_right _ hd0
        · left
          constructor
          · rw [hr1p]; show e.1 = base1.id; rw [hbase1, hid1]
          · rw [hr2p]; show e.2 = base2.id; rw [hbase2, hid2]
  · subst hr1
    rw [hr2p] at hd
    rcases List.mem_append.mp hd with hd0 | hd0
    · have := hlift base2 (by rw [hbase2]; exact getD_mem hi2) d hd0
      simpa [hr2p] using this
    · refine ⟨r1p, hmem1, ?_, ?_, e, he, ?_⟩
      · show r1p.id ≠ r2p.id
        rw [hr2p, hr1p]
        show base1.id ≠ base2.id
        rw [hbase1, hbase2, hid1, hid2]
        exact hne
      · rw [hr1p]
        exact List.mem_append_right _ hd0
      · right
        constructor
        · rw [hr1p]; show e.1 = base1.id; rw [hbase1, hid1]
        · rw [hr2p]; show e.2 = base2.id; rw [hbase2, hid2]

theorem placeDoorsStep_doorSym (p : DoorParams) (rng : ℕ → ℚ) (edges : List (ℕ × ℕ))
    (st : List AdjRoom × ℕ) (e : ℕ × ℕ) (he : e ∈ edges) (hinv : DoorSym edges st.1) :
    DoorSym edges (placeDoorsStep p rng st e).1 := by
  simp only [placeDoorsStep]
  rcases hf : findEdgeRooms st.1 e with ⟨o1, o2⟩
  rcases o1 with _ | i1 <;> rcases o2 with _ | i2
  · exact hinv
  · exact hinv
  · exact hinv
  · dsimp only
    by_cases hsel : rng st.2 < p.doorProbability
    · rw [if_pos hsel]
      rcases hw : getSharedWall (st.1.getD i1 default) (st.1.getD i2 default) with _ | wall
      · exact hinv
      · dsimp only
        by_cases hlen : 0 < wall.length
        · rw [if_pos hlen]
          obtain ⟨hi1, hi2, hid1, hid2, hne⟩ := findEdgeRooms_spec st.1 e i1 i2 hf
          exact doorSym_update edges st.1 e he i1 i2 hi1 hi2 hid1 hid2 hne _ hinv
        · rw [if_neg hlen]
          exact hinv
    · rw [if_neg hsel]
      exact hinv

theorem placeDoors_foldl_doorSym (p : DoorParams) (rng : ℕ → ℚ) (edges0 : List (ℕ × ℕ)) :
    ∀ (l : List (ℕ × ℕ)) (st : List AdjRoom × ℕ), (∀ e ∈ l, e ∈ edges0) →
      DoorSym edges0 st.1 → DoorSym edges0 (l.foldl (placeDoorsStep p rng) st).1 := by
  intro l
  induction l with
  | nil => intro st _ hinv; exact hinv
  | cons e t ih =>
      intro st hsub hinv
      simp only [List.foldl_cons]
      exact ih _ (fun e2 he2 => hsub e2 (List.mem_cons_of_mem e he2))
        (placeDoorsStep_doorSym p rng edges0 st e (hsub e (List.mem_cons_self e t)) hinv)

/-- C7: after door placement under the adjacency strategy, every door
coordinate recorded in one room's door list also appears in the door list
of a partner room joined to it by an adjacency-graph edge. -/
theorem door_symmetry (p : DoorParams) (edges : List (ℕ × ℕ)) (rng : ℕ → ℚ)
    (rooms : List AdjRoom) (hfresh : ∀ r ∈ rooms, r.doors = []) :
    ∀ r ∈ placeDoorsBetweenAdjacentRooms p edges rng rooms,
      ∀ d ∈ r.doors, ∃ r2 ∈ placeDoorsBetweenAdjacentRooms p edges rng rooms,
        r2.id ≠ r.id ∧ d ∈ r2.doors ∧
        ∃ e ∈ edges, (e.1 = r.id ∧ e.2 = r2.id) ∨ (e.1 = r2.id ∧ e.2 = r.id) := by
  have h0 : DoorSym edges rooms := by
    intro r hr d hd
    rw [hfresh r hr] at hd
    simp at hd
  exact placeDoors_foldl_doorSym p rng edges edges (rooms, 0) (fun e2 he2 => he2) h0

theorem placeDoors_example :
    placeDoorsBetweenAdjacentRooms ⟨1, 1, 3⟩ [(0, 1)] (fun _ => 0)
        [⟨0, 0, 5, 0, 12, false, []⟩, ⟨1, 5, 10, 0, 12, false, []⟩] =
      [⟨0, 0, 5, 0, 12, false, [(5, 5), (5, 6), (5, 7)]⟩,
       ⟨1, 5, 10, 0, 12, false, [(5, 5), (5, 6), (5, 7)]⟩] := by
  have hwin : doorWindow 1 3 [((5 : ℤ), (0 : ℤ)), (5, 1), (5, 2), (5, 3), (5, 4), (5, 5), (5, 6),
      (5, 7), (5, 8), (5, 9), (5, 10), (5, 11)] = [(5, 5), (5, 6), (5, 7)] := by
    unfold doorWindow
    norm_num
    decide
  have hfind : findEdgeRooms
      [⟨0, 0, 5, 0, 12, false, []⟩, ⟨1, 5, 10, 0, 12, false, []⟩] ((0 : ℕ), (1 : ℕ)) =
      (some 0, some 1) := by rfl
  have hg0 : ([⟨0, 0, 5, 0, 12, false, []⟩, ⟨1, 5, 10, 0, 12, false, []⟩] : List AdjRoom).getD 0
      default = ⟨0, 0, 5, 0, 12, false, []⟩ := rfl
  have hg1 : ([⟨0, 0, 5, 0, 12, false, []⟩, ⟨1, 5, 10, 0, 12, false, []⟩] : List AdjRoom).getD 1
      default = ⟨1, 5, 10, 0, 12, false, []⟩ := rfl
  unfold placeDoorsBetweenAdjacentRooms
  simp only [List.foldl_cons, List.foldl_nil]
  unfold placeDoorsStep
  simp only [hfind, hg0, hg1, sharedWall_example, hwin]
  norm_num [List.set]

/-- Witness for door_symmetry: the door coordinate (5, 5) recorded for the
first room after a concrete placement also appears in the second room. -/
theorem door_symmetry_witness :
    ∃ r2 ∈ placeDoorsBetweenAdjacentRooms ⟨1, 1, 3⟩ [(0, 1)] (fun _ => 0)
        [⟨0, 0, 5, 0, 12, false, []⟩, ⟨1, 5, 10, 0, 12, false, []⟩],
      r2.id ≠ (⟨0, 0, 5, 0, 12, false,
        [(5, 5), (5, 6), (5, 7)]⟩ : AdjRoom).id ∧
      ((5 : ℤ), (5 : ℤ)) ∈ r2.doors ∧
      ∃ e ∈ ([((0 : ℕ), (1 : ℕ))] : List (ℕ × ℕ)),
        (e.1 = (⟨0, 0, 5, 0, 12, false, [(5, 5), (5, 6), (5, 7)]⟩ : AdjRoom).id ∧
          e.2 = r2.id) ∨
        (e.1 = r2.id ∧
          e.2 = (⟨0, 0, 5, 0, 12, false, [(5, 5), (5, 6), (5, 7)]⟩ : AdjRoom).id) :=
  door_symmetry ⟨1, 1, 3⟩ [(0, 1)] (fun _ => 0)
    [⟨0, 0, 5, 0, 12, false, []⟩, ⟨1, 5, 10, 0, 12, false, []⟩]
    (by intro r hr
        rcases List.mem_cons.mp hr with h | h
        · rw [h]
        · rcases List.mem_cons.mp h with h2 | h2
          · rw [h2]
          · simp at h2)
    ⟨0, 0, 5, 0, 12, false, [(5, 5), (5, 6), (5, 7)]⟩
    (by rw [placeDoors_example]; exact List.mem_cons_self _ _)
    ((5 : ℤ), (5 : ℤ)) (by decide)

/-- C9 (counterexample): a parameter override naming a field that does not
exist on PhysicsLayoutParams is silently ignored by the merge (the result
is the unchanged default object) and the physics_tinykep run proceeds
without any configuration error, contrary to the claim that such an
override is fatal. -/
theorem unknown_override_counterexample :
    mergeParams physicsLayoutDefaults [("nonexistent_field", PVal.num 42)] =
      physicsLayoutDefaults ∧
    generateLayoutDispatch LayoutMethod.physicsTinykep = Except.ok () := by
  constructor
  · rfl
  · rfl

/-- C9 (amended): the layout manager raises a configuration error exactly
when the generation-method name is unknown — an unknown string fails the
enum lookup, and every actual enum member dispatches without error — while
a parameter override referencing a nonexistent field is silently ignored:
it never raises, leaves the parameters unchanged when every key is
unknown, and never creates a new field. -/
theorem layout_manager_config_errors :
    (∀ m : LayoutMethod, generateLayoutDispatch m = Except.ok ()) ∧
    (∀ s : String, (layoutMethodFromString s).isSome = true ↔ s ∈ layoutMethodValues) ∧
    (∀ (params : PyObj) (kwargs : List (String × PVal)),
      (∀ kv ∈ kwargs, pyHasattr params kv.1 = false) → mergeParams params kwargs = params) ∧
    (∀ (params : PyObj) (kwargs : List (String × PVal)),
      (mergeParams params kwargs).map Prod.fst = params.map Prod.fst) := by
  refine ⟨?_, ?_, ?_, ?_⟩
  · intro m
    cases m <;> rfl
  · intro s
    unfold layoutMethodFromString layoutMethodValues
    split_ifs with h1 h2 h3 h4 h5 h6 h7 <;> simp_all
  · intro params kwargs
    induction kwargs with
    | nil => intro _; rfl
    | cons kv t ih =>
        intro hall
        unfold mergeParams
        simp only [List.foldl_cons]
        rw [if_neg (by rw [hall kv (List.mem_cons_self kv t)]; exact Bool.false_ne_true)]
        exact ih (fun kv2 h2 => hall kv2 (List.mem_cons_of_mem kv h2))
  · intro params kwargs
    induction kwargs generalizing params with
    | nil => rfl
    | cons kv t ih =>
        unfold mergeParams
        simp only [List.foldl_cons]
        by_cases h : pyHasattr params kv.1 = true
        · rw [if_pos h]
          have hkeys : (pySetattr params kv.1 kv.2).map Prod.fst = params.map Prod.fst := by
            unfold pySetattr
            rw [List.map_map]
            refine List.map_congr_left ?_
            intro a _
            by_cases ha : a.1 = kv.1 <;> simp [ha]
          have := ih (pySetattr params kv.1 kv.2)
          unfold mergeParams at this
          rw [this, hkeys]
        · rw [if_neg h]
          have := ih params
          unfold mergeParams at this
          rw [this]

/-- Witness for layout_manager_config_errors at concrete inputs. -/
theorem layout_manager_config_errors_witness :
    generateLayoutDispatch LayoutMethod.adjacentRooms = Except.ok () ∧
    ((layoutMethodFromString "bogus_method").isSome = true ↔
      "bogus_method" ∈ layoutMethodValues) ∧
    mergeParams physicsLayoutDefaults [("nonexistent_field", PVal.num 42)] =
      physicsLayoutDefaults ∧
    (mergeParams physicsLayoutDefaults [("num_rooms", PVal.num 10)]).map Prod.fst =
      physicsLayoutDefaults.map Prod.fst :=
  ⟨layout_manager_config_errors.1 LayoutMethod.adjacentRooms,
   layout_manager_config_errors.2.1 "bogus_method",
   layout_manager_config_errors.2.2.1 physicsLayoutDefaults [("nonexistent_field", PVal.num 42)]
     (by intro kv hkv
         rcases List.mem_cons.mp hkv with h | h
         · rw [h]; rfl
         · simp at h),
   layout_manager_config_errors.2.2.2 physicsLayoutDefaults [("num_rooms", PVal.num 10)]⟩

theorem range_map_getD (n : ℕ) (f : ℕ → ℕ) (k : ℕ) (d : ℕ) (hk : k < n) :
    ((List.range n).map f).getD k d = f k := by
  rw [List.getD_eq_getElem _ d (by simpa using hk)]
  simp

theorem range_map_eq_iff (n : ℕ) (f g : ℕ → ℕ) :
    (List.range n).map f = (List.range n).map g ↔ ∀ k < n, f k = g k := by
  constructor
  · intro h k hk
    have hc := congrArg (fun l => l.getD k 0) h
    dsimp only at hc
    rw [range_map_getD n f k 0 hk, range_map_getD n g k 0 hk] at hc
    exact hc
  · intro h
    refine List.map_congr_left ?_
    intro a ha
    exact h a (List.mem_range.mp ha)

/-- C2: for patterns A and B extracted from the sample, B is recorded in
the rules entry (A, right) exactly when the trailing (rightmost) column of
A equals the leading (leftmost) column of B, and B is recorded in the
rules entry (A, down) exactly when the trailing (bottom) row of A equals
the leading (top) row of B. -/
theorem wfc_adjacency_rules (ps : ℕ) (sample : List (List ℕ)) (A B : Pattern)
    (hA : A ∈ extractPatterns ps sample) (hB : B ∈ extractPatterns ps sample) :
    (B ∈ adjacencyRight ps (extractPatterns ps sample) A ↔
      trailingCol ps A = leadingCol ps B) ∧
    (B ∈ adjacencyDown ps (extractPatterns ps sample) A ↔
      trailingRow ps A = leadingRow ps B) := by
  constructor
  · unfold adjacencyRight
    rw [List.mem_filter]
    unfold trailingCol leadingCol
    rw [range_map_eq_iff]
    constructor
    · intro h
      have := of_decide_eq_true h.2
      exact this
    · intro h
      exact ⟨hB, decide_eq_true h⟩
  · unfold adjacencyDown
    rw [List.mem_filter]
    unfold trailingRow leadingRow
    rw [range_map_eq_iff]
    constructor
    · intro h
      have := of_decide_eq_true h.2
      exact this
    · intro h
      exact ⟨hB, decide_eq_true h⟩

/-- Witness for wfc_adjacency_rules on a 1 x 2 sample with two 1 x 1
patterns. -/
theorem wfc_adjacency_rules_witness :
    (([2] : Pattern) ∈ adjacencyRight 1 (extractPatterns 1 [[1, 2]]) [1] ↔
      trailingCol 1 [1] = leadingCol 1 [2]) ∧
    (([2] : Pattern) ∈ adjacencyDown 1 (extractPatterns 1 [[1, 2]]) [1] ↔
      trailingRow 1 [1] = leadingRow 1 [2]) :=
  wfc_adjacency_rules 1 [[1, 2]] [1] [2] (by decide) (by decide)

theorem islandCell_eq (g : List (List ℕ)) (y x : ℕ) :
    islandCell g y x =
      if y < g.length ∧ x < (g.headD []).length then
        (if maskAt g y x then cellNat g y x else 0)
      else 0 := by
  have hrow : (extractRoomIsland g).getD y [] =
      if y < g.length then
        (List.range (g.headD []).length).map
          (fun x => if maskAt g y x then cellNat g y x else 0)
      else [] := by
    unfold extractRoomIsland
    by_cases hy : y < g.length
    · rw [if_pos hy, List.getD_eq_getElem _ _ (by simpa using hy)]
      simp
    · rw [if_neg hy, List.getD_eq_default _ _ (by simpa using le_of_not_lt hy)]
  unfold islandCell
  rw [hrow]
  by_cases hy : y < g.length
  · rw [if_pos hy]
    by_cases hx : x < (g.headD []).length
    · rw [range_map_getD _ _ _ _ hx,
        if_pos (show y < g.length ∧ x < (g.headD []).length from ⟨hy, hx⟩)]
    · rw [List.getD_eq_default _ _ (by simpa using le_of_not_lt hx),
        if_neg (show ¬(y < g.length ∧ x < (g.headD []).length) from fun h => hx h.2)]
  · rw [if_neg hy,
      if_neg (show ¬(y < g.length ∧ x < (g.headD []).length) from fun h => hy h.1)]
    rfl

/-- C10: island extraction returns a grid of the same shape in which every
cell is either zeroed or keeps its input value, and every retained wall or
door cell (tile 2 or 4) is 8-adjacent to a retained interior cell. -/
theorem island_extraction_spec (g : List (List ℕ))
    (hrect : ∀ row ∈ g, row.length = (g.headD []).length) :
    (extractRoomIsland g).length = g.length ∧
    (∀ i : ℕ, i < g.length →
      ((extractRoomIsland g).getD i []).length = (g.getD i []).length) ∧
    (∀ y x : ℕ, islandCell g y x = 0 ∨ islandCell g y x = cellNat g y x) ∧
    (∀ y x : ℕ, (islandCell g y x = 2 ∨ islandCell g y x = 4) →
      ∃ d ∈ dirs8,
        0 ≤ (y : ℤ) + d.1 ∧ (y : ℤ) + d.1 < (g.length : ℤ) ∧
        0 ≤ (x : ℤ) + d.2 ∧ (x : ℤ) + d.2 < ((g.headD []).length : ℤ) ∧
        interiorAt g ((y : ℤ) + d.1).toNat ((x : ℤ) + d.2).toNat = true ∧
        islandCell g ((y : ℤ) + d.1).toNat ((x : ℤ) + d.2).toNat =
          cellNat g ((y : ℤ) + d.1).toNat ((x : ℤ) + d.2).toNat ∧
        cellNat g ((y : ℤ) + d.1).toNat ((x : ℤ) + d.2).toNat ≠ 0) := by
  have hshape : (extractRoomIsland g).length = g.length := by
    unfold extractRoomIsland
    simp
  refine ⟨hshape, ?_, ?_, ?_⟩
  · intro i hi
    unfold extractRoomIsland
    rw [List.getD_eq_getElem _ _ (by simpa using hi)]
    simp only [List.getElem_map, List.getElem_range, List.length_map, List.length_range]
    have hmem : g.getD i [] ∈ g := by
      rw [List.getD_eq_getElem _ _ hi]
      exact List.getElem_mem hi
    rw [hrect (g.getD i []) hmem]
  · intro y x
    rw [islandCell_eq]
    split
    · split
      · right; rfl
      · left; rfl
    · left; rfl
  · intro y x hval
    rw [islandCell_eq] at hval
    by_cases hin : y < g.length ∧ x < (g.headD []).length
    · rw [if_pos hin] at hval
      by_cases hmask : maskAt g y x = true
      · rw [if_pos hmask] at hval
        have hwd : isWallOrDoor g (y : ℤ) (x : ℤ) = true := by
          unfold isWallOrDoor cellAt
          rw [if_pos (by constructor <;> positivity)]
          simp only [Int.toNat_ofNat, Int.toNat_natCast]
          exact decide_eq_true hval
        have hint : interiorAt g y x = false := by
          unfold interiorAt
          rw [hwd]
          simp
        have hbd : boundaryAt g y x = true := by
          unfold maskAt at hmask
          rcases Bool.or_eq_true_iff.mp hmask with h | h
          · rw [hint] at h; exact absurd h (by simp)
          · exact h
        unfold boundaryAt at hbd
        obtain ⟨-, hany⟩ := Bool.and_eq_true_iff.mp hbd
        obtain ⟨d, hd, hconj⟩ := List.any_eq_true.mp hany
        have hconj' := hconj
        simp only [Bool.and_eq_true, decide_eq_true_eq] at hconj'
        obtain ⟨⟨⟨⟨hb1, hb2⟩, hb3⟩, hb4⟩, hintn⟩ := hconj'
        refine ⟨d, hd, hb1, hb2, hb3, hb4, hintn, ?_, ?_⟩
        · rw [islandCell_eq, if_pos ⟨by omega, by omega⟩,
            if_pos (by unfold maskAt; rw [hintn]; rfl)]
        · unfold interiorAt at hintn
          have h1 := Bool.and_eq_true_iff.mp hintn
          have h2 := Bool.and_eq_true_iff.mp h1.1
          exact of_decide_eq_true h2.1
      · rw [if_neg hmask] at hval
        rcases hval with h | h <;> simp at h
    · rw [if_neg hin] at hval
      rcases hval with h | h <;> simp at h

/-- Witness for island_extraction_spec on a small walled room. -/
theorem island_extraction_spec_witness :
    (extractRoomIsland [[2, 2, 2], [2, 1, 2], [2, 2, 2]]).length =
      ([[2, 2, 2], [2, 1, 2], [2, 2, 2]] : List (List ℕ)).length ∧
    (∀ i : ℕ, i < ([[2, 2, 2], [2, 1, 2], [2, 2, 2]] : List (List ℕ)).length →
      ((extractRoomIsland [[2, 2, 2], [2, 1, 2], [2, 2, 2]]).getD i []).length =
        (([[2, 2, 2], [2, 1, 2], [2, 2, 2]] : List (List ℕ)).getD i []).length) ∧
    (∀ y x : ℕ, islandCell [[2, 2, 2], [2, 1, 2], [2, 2, 2]] y x = 0 ∨
      islandCell [[2, 2, 2], [2, 1, 2], [2, 2, 2]] y x =
        cellNat [[2, 2, 2], [2, 1, 2], [2, 2, 2]] y x) ∧
    (∀ y x : ℕ,
      (islandCell [[2, 2, 2], [2, 1, 2], [2, 2, 2]] y x = 2 ∨
        islandCell [[2, 2, 2], [2, 1, 2], [2, 2, 2]] y x = 4) →
      ∃ d ∈ dirs8,
        0 ≤ (y : ℤ) + d.1 ∧
        (y : ℤ) + d.1 < (([[2, 2, 2], [2, 1, 2], [2, 2, 2]] : List (List ℕ)).length : ℤ) ∧
        0 ≤ (x : ℤ) + d.2 ∧
        (x : ℤ) + d.2 <
          ((([[2, 2, 2], [2, 1, 2], [2, 2, 2]] : List (List ℕ)).headD []).length : ℤ) ∧
        interiorAt [[2, 2, 2], [2, 1, 2], [2, 2, 2]]
          ((y : ℤ) + d.1).toNat ((x : ℤ) + d.2).toNat = true ∧
        islandCell [[2, 2, 2], [2, 1, 2], [2, 2, 2]]
            ((y : ℤ) + d.1).toNat ((x : ℤ) + d.2).toNat =
          cellNat [[2, 2, 2], [2, 1, 2], [2, 2, 2]]
            ((y : ℤ) + d.1).toNat ((x : ℤ) + d.2).toNat ∧
        cellNat [[2, 2, 2], [2, 1, 2], [2, 2, 2]]
          ((y : ℤ) + d.1).toNat ((x : ℤ) + d.2).toNat ≠ 0) :=
  island_extraction_spec [[2, 2, 2], [2, 1, 2], [2, 2, 2]] (by decide)

theorem agreeOff_refl (S : List (ℤ × ℤ)) (g : Grid) : AgreeOff S g g :=
  fun _ _ _ => rfl

theorem setCell_agreeOff_mem (S : List (ℤ × ℤ)) {g1 g2 : Grid} (h : AgreeOff S g1 g2)
    {y0 x0 : ℤ} (hmem : (y0, x0) ∈ S) (v1 v2 : ℕ) :
    AgreeOff S (setCell g1 y0 x0 v1) (setCell g2 y0 x0 v2) := by
  intro y x hyx
  have hne : ¬(y = y0 ∧ x = x0) := by
    rintro ⟨rfl, rfl⟩
    exact hyx hmem
  rw [setCell_other _ _ _ _ _ _ hne, setCell_other _ _ _ _ _ _ hne]
  exact h y x hyx

theorem setCell_agreeOff_same (S : List (ℤ × ℤ)) {g1 g2 : Grid} (h : AgreeOff S g1 g2)
    (y0 x0 : ℤ) (v : ℕ) : AgreeOff S (setCell g1 y0 x0 v) (setCell g2 y0 x0 v) := by
  intro y x hyx
  unfold setCell
  by_cases hc : y = y0 ∧ x = x0
  · rw [if_pos hc, if_pos hc]
  · rw [if_neg hc, if_neg hc]
    exact h y x hyx

theorem corridorWrite_agree (S : List (ℤ × ℤ)) (W H : ℤ) {g1 g2 : Grid}
    (h : AgreeOff S g1 g2) (gy gx : ℤ) :
    AgreeOff S (corridorWrite W H g1 gy gx) (corridorWrite W H g2 gy gx) := by
  intro y x hyx
  unfold corridorWrite
  by_cases hb : 0 ≤ gx ∧ gx < W ∧ 0 ≤ gy ∧ gy < H
  · rw [if_pos hb, if_pos hb]
    by_cases hc : y = gy ∧ x = gx
    · obtain ⟨h1, h2⟩ := hc
      subst h1; subst h2
      have heq := h y x hyx
      by_cases hz : g1 y x = 0
      · rw [if_pos hz, if_pos (heq ▸ hz), setCell_same, setCell_same]
      · rw [if_neg hz, if_neg (heq ▸ hz)]
        exact heq
    · have e1 : (if g1 gy gx = 0 then setCell g1 gy gx 3 else g1) y x = g1 y x := by
        split
        · exact setCell_other _ _ _ _ _ _ hc
        · rfl
      have e2 : (if g2 gy gx = 0 then setCell g2 gy gx 3 else g2) y x = g2 y x := by
        split
        · exact setCell_other _ _ _ _ _ _ hc
        · rfl
      rw [e1, e2]
      exact h y x hyx
  · rw [if_neg hb, if_neg hb]
    exact h y x hyx

theorem roomCellWrite_agree (S : List (ℤ × ℤ)) (W H : ℤ) (pw fill : Bool)
    (ys ye xs xe : ℤ) {g1 g2 : Grid} (h : AgreeOff S g1 g2) (y0 x0 : ℤ) :
    AgreeOff S (roomCellWrite W H pw fill ys ye xs xe g1 y0 x0)
      (roomCellWrite W H pw fill ys ye xs xe g2 y0 x0) := by
  intro y x hyx
  unfold roomCellWrite
  by_cases hb : 0 ≤ x0 ∧ x0 < W ∧ 0 ≤ y0 ∧ y0 < H
  · rw [if_pos hb, if_pos hb]
    by_cases hw : pw = true ∧ (y0 = ys ∨ y0 = ye - 1 ∨ x0 = xs ∨ x0 = xe - 1)
    · rw [if_pos hw, if_pos hw]
      by_cases hc : y = y0 ∧ x = x0
      · obtain ⟨h1, h2⟩ := hc
        subst h1; subst h2
        have heq := h y x hyx
        by_cases hz : g1 y x = 0
        · rw [if_pos hz, if_pos (heq ▸ hz), setCell_same, setCell_same]
        · rw [if_neg hz, if_neg (heq ▸ hz)]
          exact heq
      · have e1 : (if g1 y0 x0 = 0 then setCell g1 y0 x0 2 else g1) y x = g1 y x := by
          split
          · exact setCell_other _ _ _ _ _ _ hc
          · rfl
        have e2 : (if g2 y0 x0 = 0 then setCell g2 y0 x0 2 else g2) y x = g2 y x := by
          split
          · exact setCell_other _ _ _ _ _ _ hc
          · rfl
        rw [e1, e2]
        exact h y x hyx
    · rw [if_neg hw, if_neg hw]
      by_cases hf : fill = true
      · rw [if_pos hf, if_pos hf]
        exact setCell_agreeOff_same S h y0 x0 1 y x hyx
      · rw [if_neg hf, if_neg hf]
        exact h y x hyx
  · rw [if_neg hb, if_neg hb]
    exact h y x hyx

theorem foldl_gridAgree {α : Type} (S : List (ℤ × ℤ)) (f : Grid → α → Grid)
    (hstep : ∀ g1 g2 a, AgreeOff S g1 g2 → AgreeOff S (f g1 a) (f g2 a)) :
    ∀ (l : List α) (g1 g2 : Grid), AgreeOff S g1 g2 →
      AgreeOff S (l.foldl f g1) (l.foldl f g2) := by
  intro l
  induction l with
  | nil => intro g1 g2 h; exact h
  | cons a t ih =>
      intro g1 g2 h
      simp only [List.foldl_cons]
      exact ih _ _ (hstep g1 g2 a h)

theorem drawHorizontalCorridor_agree (S : List (ℤ × ℤ)) (W H cw : ℤ) (sx ex yq : ℚ)
    {g1 g2 : Grid} (h : AgreeOff S g1 g2) :
    AgreeOff S (drawHorizontalCorridor W H cw sx ex yq g1)
      (drawHorizontalCorridor W H cw sx ex yq g2) := by
  unfold drawHorizontalCorridor
  dsimp only
  refine foldl_gridAgree S _ (fun ga gb xx hab => ?_) _ g1 g2 h
  refine foldl_gridAgree S _ (fun gc gd dy hcd => ?_) _ ga gb hab
  exact corridorWrite_agree S W H hcd _ _

theorem drawVerticalCorridor_agree (S : List (ℤ × ℤ)) (W H cw : ℤ) (sy ey xq : ℚ)
    {g1 g2 : Grid} (h : AgreeOff S g1 g2) :
    AgreeOff S (drawVerticalCorridor W H cw sy ey xq g1)
      (drawVerticalCorridor W H cw sy ey xq g2) := by
  unfold drawVerticalCorridor
  dsimp only
  refine foldl_gridAgree S _ (fun ga gb yy hab => ?_) _ g1 g2 h
  refine foldl_gridAgree S _ (fun gc gd dx hcd => ?_) _ ga gb hab
  exact corridorWrite_agree S W H hcd _ _

theorem drawDirectCorridor_agree (S : List (ℤ × ℤ)) (W H cw : ℤ) (sx sy ex ey : ℚ)
    {g1 g2 : Grid} (h : AgreeOff S g1 g2) :
    AgreeOff S (drawDirectCorridor W H cw sx sy ex ey g1)
      (drawDirectCorridor W H cw sx sy ex ey g2) := by
  unfold drawDirectCorridor
  dsimp only
  split
  · exact h
  · refine foldl_gridAgree S _ (fun ga gb i hab => ?_) _ g1 g2 h
    refine foldl_gridAgree S _ (fun gc gd dx hcd => ?_) _ ga gb hab
    refine foldl_gridAgree S _ (fun ge gf dy hef => ?_) _ gc gd hcd
    exact corridorWrite_agree S W H hef _ _

theorem drawCorridors_agree (S : List (ℤ × ℤ)) (W H cw : ℤ) (cs : List Corridor)
    {g1 g2 : Grid} (h : AgreeOff S g1 g2) :
    AgreeOff S (drawCorridors W H cw cs g1) (drawCorridors W H cw cs g2) := by
  unfold drawCorridors
  refine foldl_gridAgree S _ (fun ga gb c hab => ?_) cs g1 g2 h
  match c.direction with
  | CorridorDirection.horizontal => exact drawHorizontalCorridor_agree S W H cw _ _ _ hab
  | CorridorDirection.vertical => exact drawVerticalCorridor_agree S W H cw _ _ _ hab
  | CorridorDirection.direct => exact drawDirectCorridor_agree S W H cw _ _ _ _ hab

theorem placeRoomOnGrid_agree (S : List (ℤ × ℤ)) (W H : ℤ) (pw fill : Bool)
    (room : PhysicsRoom) (isMainArg : Bool) (rng1 rng2 : ℕ → Fin 6) (st1 st2 : Grid × ℕ)
    (hg : AgreeOff S st1.1 st2.1) (hi : st1.2 = st2.2)
    (hcenter : isMainArg = true → (roomCenterY room, roomCenterX room) ∈ S) :
    AgreeOff S (placeRoomOnGrid W H pw fill room isMainArg rng1 st1).1
      (placeRoomOnGrid W H pw fill room isMainArg rng2 st2).1 ∧
    (placeRoomOnGrid W H pw fill room isMainArg rng1 st1).2 =
      (placeRoomOnGrid W H pw fill room isMainArg rng2 st2).2 := by
  simp only [placeRoomOnGrid]
  have hg1 : AgreeOff S
      ((intRange (max 0 (pyInt room.y)) (min H (pyInt (room.y + (room.height : ℚ))))).foldl
        (fun gy y => (intRange (max 0 (pyInt room.x))
            (min W (pyInt (room.x + (room.width : ℚ))))).foldl
          (fun gx x => roomCellWrite W H pw fill (max 0 (pyInt room.y))
            (min H (pyInt (room.y + (room.height : ℚ)))) (max 0 (pyInt room.x))
            (min W (pyInt (room.x + (room.width : ℚ)))) gx y x) gy) st1.1)
      ((intRange (max 0 (pyInt room.y)) (min H (pyInt (room.y + (room.height : ℚ))))).foldl
        (fun gy y => (intRange (max 0 (pyInt room.x))
            (min W (pyInt (room.x + (room.width : ℚ))))).foldl
          (fun gx x => roomCellWrite W H pw fill (max 0 (pyInt room.y))
            (min H (pyInt (room.y + (room.height : ℚ)))) (max 0 (pyInt room.x))
            (min W (pyInt (room.x + (room.width : ℚ)))) gx y x) gy) st2.1) := by
    refine foldl_gridAgree S _ (fun ga gb y hab => ?_) _ _ _ hg
    refine foldl_gridAgree S _ (fun gc gd x hcd => ?_) _ ga gb hab
    exact roomCellWrite_agree S W H pw fill _ _ _ _ hcd y x
  by_cases hb : 0 ≤ roomCenterX room ∧ roomCenterX room < W ∧
      0 ≤ roomCenterY room ∧ roomCenterY room < H
  · rw [if_pos hb, if_pos hb]
    by_cases hm : isMainArg = true
    · rw [if_pos hm, if_pos hm]
      refine ⟨?_, by rw [hi]⟩
      exact setCell_agreeOff_mem S hg1 (hcenter hm) _ _
    · rw [if_neg hm, if_neg hm]
      exact ⟨setCell_agreeOff_same S hg1 _ _ 3, hi⟩
  · rw [if_neg hb, if_neg hb]
    exact ⟨hg1, hi⟩

theorem foldSt_agree {α : Type} (S : List (ℤ × ℤ))
    (f1 f2 : (Grid × ℕ) → α → (Grid × ℕ)) :
    ∀ (l : List α),
      (∀ st1 st2 a, a ∈ l → AgreeOff S st1.1 st2.1 → st1.2 = st2.2 →
        AgreeOff S (f1 st1 a).1 (f2 st2 a).1 ∧ (f1 st1 a).2 = (f2 st2 a).2) →
      ∀ st1 st2, AgreeOff S st1.1 st2.1 → st1.2 = st2.2 →
        AgreeOff S (l.foldl f1 st1).1 (l.foldl f2 st2).1 ∧
        (l.foldl f1 st1).2 = (l.foldl f2 st2).2 := by
  intro l
  induction l with
  | nil => intro _ st1 st2 hg hi; exact ⟨hg, hi⟩
  | cons a t ih =>
      intro hstep st1 st2 hg hi
      simp only [List.foldl_cons]
      obtain ⟨hg2, hi2⟩ := hstep st1 st2 a (List.mem_cons_self a t) hg hi
      exact ih (fun s1 s2 b hb => hstep s1 s2 b (List.mem_cons_of_mem a hb)) _ _ hg2 hi2

/-- C8 (amended): the final-grid rasterization is deterministic except at
main-room center markers: for any two marker random streams the resulting
grids agree on every cell that is not the center-marker cell of a main
room, and the two runs consume the same number of random draws. -/
theorem final_grid_rng_agree (W H : ℤ) (pw fill : Bool) (cw : ℤ) (buffer : ℚ)
    (rooms : List PhysicsRoom) (corridors : List Corridor) (rng1 rng2 : ℕ → Fin 6)
    (y x : ℤ) (hyx : (y, x) ∉ mainCenters rooms) :
    (createFinalGrid W H pw fill cw buffer rooms corridors rng1).1 y x =
      (createFinalGrid W H pw fill cw buffer rooms corridors rng2).1 y x ∧
    (createFinalGrid W H pw fill cw buffer rooms corridors rng1).2 =
      (createFinalGrid W H pw fill cw buffer rooms corridors rng2).2 := by
  simp only [createFinalGrid]
  have hmain := foldSt_agree (mainCenters rooms)
    (fun st r => if r.isMain = true then placeRoomOnGrid W H pw fill r true rng1 st else st)
    (fun st r => if r.isMain = true then placeRoomOnGrid W H pw fill r true rng2 st else st)
    rooms
    (fun st1 st2 r hr hg hi => by
      dsimp only
      by_cases hm : r.isMain = true
      · rw [if_pos hm, if_pos hm]
        refine placeRoomOnGrid_agree (mainCenters rooms) W H pw fill r true rng1 rng2 st1 st2
          hg hi (fun _ => ?_)
        unfold mainCenters
        exact List.mem_map_of_mem _ (List.mem_filter.mpr ⟨hr, hm⟩)
      · rw [if_neg hm, if_neg hm]
        exact ⟨hg, hi⟩)
    ((fun _ _ => 0), 0) ((fun _ _ => 0), 0) (agreeOff_refl _ _) rfl
  have hhall := foldSt_agree (mainCenters rooms)
    (fun st r => if r.isHallway = true then placeRoomOnGrid W H pw fill r false rng1 st else st)
    (fun st r => if r.isHallway = true then placeRoomOnGrid W H pw fill r false rng2 st else st)
    (createCorridorRooms buffer corridors rooms)
    (fun st1 st2 r hr hg hi => by
      dsimp only
      by_cases hm : r.isHallway = true
      · rw [if_pos hm, if_pos hm]
        exact placeRoomOnGrid_agree (mainCenters rooms) W H pw fill r false rng1 rng2 st1 st2
          hg hi (fun hcon => absurd hcon (by simp))
      · rw [if_neg hm, if_neg hm]
        exact ⟨hg, hi⟩)
    _ _ hmain.1 hmain.2
  exact ⟨drawCorridors_agree (mainCenters rooms) W H cw corridors hhall.1 y x hyx, hhall.2⟩

/-- Witness for final_grid_rng_agree away from the single main center. -/
theorem final_grid_rng_agree_witness :
    (createFinalGrid 10 10 true true 3 1 [⟨0, 1, 1, 5, 5, true, false⟩] []
        (fun _ => (0 : Fin 6))).1 0 0 =
      (createFinalGrid 10 10 true true 3 1 [⟨0, 1, 1, 5, 5, true, false⟩] []
        (fun _ => (1 : Fin 6))).1 0 0 ∧
    (createFinalGrid 10 10 true true 3 1 [⟨0, 1, 1, 5, 5, true, false⟩] []
        (fun _ => (0 : Fin 6))).2 =
      (createFinalGrid 10 10 true true 3 1 [⟨0, 1, 1, 5, 5, true, false⟩] []
        (fun _ => (1 : Fin 6))).2 :=
  final_grid_rng_agree 10 10 true true 3 1 [⟨0, 1, 1, 5, 5, true, false⟩] []
    (fun _ => (0 : Fin 6)) (fun _ => (1 : Fin 6)) 0 0
    (by norm_num [mainCenters, roomCenterX, roomCenterY, pyInt, List.mem_filter]
        decide)

/-- C8 (counterexample): rasterizing the same single main room with two
different marker streams yields different grids: the center marker is 6
under one stream and 7 under the other, so randomness is consumed at the
rasterization stage and re-running is not bit-identical. -/
theorem final_grid_randomness_counterexample :
    (createFinalGrid 1 1 true true 3 1 [⟨0, 0, 0, 1, 1, true, false⟩] []
      (fun _ => (0 : Fin 6))).1 0 0 = 6 ∧
    (createFinalGrid 1 1 true true 3 1 [⟨0, 0, 0, 1, 1, true, false⟩] []
      (fun _ => (1 : Fin 6))).1 0 0 = 7 ∧
    (createFinalGrid 1 1 true true 3 1 [⟨0, 0, 0, 1, 1, true, false⟩] []
        (fun _ => (0 : Fin 6))).1 ≠
      (createFinalGrid 1 1 true true 3 1 [⟨0, 0, 0, 1, 1, true, false⟩] []
        (fun _ => (1 : Fin 6))).1 := by
  have hfd : Int.fdiv 1 2 = 0 := rfl
  have hr01 : intRange 0 1 = [0] := rfl
  have h1 : (createFinalGrid 1 1 true true 3 1 [⟨0, 0, 0, 1, 1, true, false⟩] []
      (fun _ => (0 : Fin 6))).1 0 0 = 6 := by
    norm_num [createFinalGrid, placeRoomOnGrid, createCorridorRooms, drawCorridors,
      roomCellWrite, roomCenterX, roomCenterY, pyInt, hfd, hr01, setCell, roomTypes]
  have h2 : (createFinalGrid 1 1 true true 3 1 [⟨0, 0, 0, 1, 1, true, false⟩] []
      (fun _ => (1 : Fin 6))).1 0 0 = 7 := by
    norm_num [createFinalGrid, placeRoomOnGrid, createCorridorRooms, drawCorridors,
      roomCellWrite, roomCenterX, roomCenterY, pyInt, hfd, hr01, setCell, roomTypes]
  refine ⟨h1, h2, ?_⟩
  intro hcon
  have := congrFun (congrFun hcon 0) 0
  rw [h1, h2] at this
  exact absurd this (by decide)

theorem propagateStep_nonempty (uniq : List Pattern) (ps H W : ℕ) (c : ℤ × ℤ)
    (st : WfcState × List (ℤ × ℤ)) (h : AllNonempty st.1) :
    AllNonempty (propagateStep uniq ps H W c st).1 := by
  unfold propagateStep
  have hfold : ∀ (l : List (Dir × ℤ × ℤ)) (acc : WfcState × List (ℤ × ℤ)),
      AllNonempty acc.1 →
      AllNonempty ((l.foldl (fun acc d =>
        let ni := c.1 + d.2.1
        let nj := c.2 + d.2.2
        if 0 ≤ ni ∧ ni < (H : ℤ) ∧ 0 ≤ nj ∧ nj < (W : ℤ) ∧ acc.1.output ni nj = none then
          let before := acc.1.possible ni nj
          let newPossible := before.filter (fun p2 =>
            ∃ p1 ∈ acc.1.possible c.1 c.2,
              dirAdjOk ps d.1 (uniq.getD p1 ([] : Pattern)) (uniq.getD p2 ([] : Pattern)))
          if newPossible.Nonempty ∧ newPossible ≠ before then
            ({ acc.1 with possible := fun y x =>
                if y = ni ∧ x = nj then newPossible else acc.1.possible y x },
             (ni, nj) :: acc.2)
          else acc
        else acc) acc)).1 := by
    intro l
    induction l with
    | nil => intro acc hacc; exact hacc
    | cons d t ih =>
        intro acc hacc
        simp only [List.foldl_cons]
        refine ih _ ?_
        dsimp only
        by_cases hb : 0 ≤ c.1 + d.2.1 ∧ c.1 + d.2.1 < (H : ℤ) ∧ 0 ≤ c.2 + d.2.2 ∧
            c.2 + d.2.2 < (W : ℤ) ∧ acc.1.output (c.1 + d.2.1) (c.2 + d.2.2) = none
        · rw [if_pos hb]
          by_cases hn : (Finset.filter (fun p2 =>
              ∃ p1 ∈ acc.1.possible c.1 c.2,
                dirAdjOk ps d.1 (uniq.getD p1 ([] : Pattern)) (uniq.getD p2 ([] : Pattern)))
              (acc.1.possible (c.1 + d.2.1) (c.2 + d.2.2))).Nonempty ∧
              (Finset.filter (fun p2 =>
              ∃ p1 ∈ acc.1.possible c.1 c.2,
                dirAdjOk ps d.1 (uniq.getD p1 ([] : Pattern)) (uniq.getD p2 ([] : Pattern)))
              (acc.1.possible (c.1 + d.2.1) (c.2 + d.2.2))) ≠
              acc.1.possible (c.1 + d.2.1) (c.2 + d.2.2)
          · rw [if_pos hn]
            intro i j
            dsimp only
            by_cases hc : i = c.1 + d.2.1 ∧ j = c.2 + d.2.2
            · rw [if_pos hc]
              exact hn.1
            · rw [if_neg hc]
              exact hacc i j
          · rw [if_neg hn]
            exact hacc
        · rw [if_neg hb]
          exact hacc
  exact hfold propagateDirs st h

theorem propagate_nonempty (uniq : List Pattern) (ps H W : ℕ) :
    ∀ (fuel : ℕ) (stack : List (ℤ × ℤ)) (st : WfcState), AllNonempty st →
      AllNonempty (propagate uniq ps H W fuel stack st) := by
  intro fuel
  induction fuel with
  | zero => intro stack st h; exact h
  | succ n ih =>
      intro stack st h
      match stack with
      | [] => exact h
      | c :: rest =>
          unfold propagate
          exact ih _ _ (propagateStep_nonempty uniq ps H W c (st, rest) h)

theorem wfcLoop_nonempty (uniq : List Pattern) (ps H W : ℕ) (chooser : ℕ → ℕ) :
    ∀ (fuel t : ℕ) (st : WfcState), AllNonempty st →
      AllNonempty (wfcLoop uniq ps H W chooser fuel t st) := by
  intro fuel
  induction fuel with
  | zero => intro t st h; exact h
  | succ n ih =>
      intro t st h
      unfold wfcLoop
      match hobs : observe H W st with
      | none => exact h
      | some c =>
          refine ih _ _ (propagate_nonempty uniq ps H W _ _ _ ?_)
          intro i j
          dsimp only
          by_cases hc : i = c.1 ∧ j = c.2
          · rw [if_pos hc]
            exact Finset.singleton_nonempty _
          · rw [if_neg hc]
            exact h i j

theorem firstDedup_ne_nil {l : List Pattern} (h : l ≠ []) : firstDedup l ≠ [] := by
  unfold firstDedup
  have main : ∀ (t : List Pattern) (acc : List Pattern), t ≠ [] ∨ acc ≠ [] →
      t.foldl (fun acc p => if p ∈ acc then acc else acc ++ [p]) acc ≠ [] := by
    intro t
    induction t with
    | nil =>
        intro acc hd
        rcases hd with hd | hd
        · exact absurd rfl hd
        · exact hd
    | cons p tt ih =>
        intro acc _
        simp only [List.foldl_cons]
        refine ih _ (Or.inr ?_)
        by_cases hp : p ∈ acc
        · rw [if_pos hp]
          intro hcon
          rw [hcon] at hp
          simp at hp
        · rw [if_neg hp]
          simp
  exact main l [] (Or.inl h)

/-- C3 (counterexample): on a uniform 3 x 3 sample with a single pattern
and a 1 x 1 output, the only cell has the singleton domain {0}, which is
never empty, yet the cell is never observed (its domain size is not
greater than 1), so it stays uncollapsed and receives the fallback tile 0
even though the center tile of its only candidate pattern is 5. -/
theorem wfc_fallback_counterexample :
    (wfcRun 3 1 1 (fun _ => 0) [[5, 5, 5], [5, 5, 5], [5, 5, 5]]).tilemap 0 0 = 0 ∧
    ((wfcRun 3 1 1 (fun _ => 0) [[5, 5, 5], [5, 5, 5], [5, 5, 5]]).final.possible 0 0).Nonempty ∧
    (wfcRun 3 1 1 (fun _ => 0) [[5, 5, 5], [5, 5, 5], [5, 5, 5]]).final.output 0 0 = none ∧
    ((wfcRun 3 1 1 (fun _ => 0)
        [[5, 5, 5], [5, 5, 5], [5, 5, 5]]).uniq.getD 0 ([] : Pattern)).getD 4 0 = 5 ∧
    (5 : ℕ) ≠ 0 := by
  refine ⟨by decide, ?_, by decide, by decide, by decide⟩
  refine ⟨0, ?_⟩
  decide

/-- C3 (amended): in the WFC run every cell collapsed by observation is
mapped to the center tile value of its single collapsed pattern, and every
other cell receives the fallback tile 0; when at least one pattern exists,
the domains never become empty (propagation refuses to store an empty
set), so the fallback is triggered by a cell being left uncollapsed — for
example a domain narrowed to a single pattern by propagation — not by an
empty domain, and the run always terminates normally. -/
theorem wfc_fallback_spec (ps H W : ℕ) (chooser : ℕ → ℕ) (sample : List (List ℕ))
    (hne : extractPatterns ps sample ≠ []) :
    (∀ i j : ℤ, ∀ p : ℕ, (wfcRun ps H W chooser sample).final.output i j = some p →
      (wfcRun ps H W chooser sample).tilemap i j =
        ((wfcRun ps H W chooser sample).uniq.getD p ([] : Pattern)).getD
          (ps / 2 * ps + ps / 2) 0) ∧
    (∀ i j : ℤ, (wfcRun ps H W chooser sample).final.output i j = none →
      (wfcRun ps H W chooser sample).tilemap i j = 0) ∧
    AllNonempty (wfcRun ps H W chooser sample).final := by
  refine ⟨?_, ?_, ?_⟩
  · intro i j p h
    simp only [wfcRun] at h ⊢
    rw [h]
  · intro i j h
    simp only [wfcRun] at h ⊢
    rw [h]
  · simp only [wfcRun]
    refine wfcLoop_nonempty _ ps H W chooser _ 0 _ ?_
    intro i j
    rw [Finset.nonempty_range_iff]
    intro hcon
    exact firstDedup_ne_nil hne (List.length_eq_zero.mp hcon)

/-- Witness for wfc_fallback_spec at the uniform sample. -/
theorem wfc_fallback_spec_witness :
    (∀ i j : ℤ, ∀ p : ℕ,
      (wfcRun 3 1 1 (fun _ => 0) [[5, 5, 5], [5, 5, 5], [5, 5, 5]]).final.output i j = some p →
      (wfcRun 3 1 1 (fun _ => 0) [[5, 5, 5], [5, 5, 5], [5, 5, 5]]).tilemap i j =
        ((wfcRun 3 1 1 (fun _ => 0)
            [[5, 5, 5], [5, 5, 5], [5, 5, 5]]).uniq.getD p ([] : Pattern)).getD
          (3 / 2 * 3 + 3 / 2) 0) ∧
    (∀ i j : ℤ,
      (wfcRun 3 1 1 (fun _ => 0) [[5, 5, 5], [5, 5, 5], [5, 5, 5]]).final.output i j = none →
      (wfcRun 3 1 1 (fun _ => 0) [[5, 5, 5], [5, 5, 5], [5, 5, 5]]).tilemap i j = 0) ∧
    AllNonempty (wfcRun 3 1 1 (fun _ => 0) [[5, 5, 5], [5, 5, 5], [5, 5, 5]]).final :=
  wfc_fallback_spec 3 1 1 (fun _ => 0) [[5, 5, 5], [5, 5, 5], [5, 5, 5]] (by decide)

end Layout







